import Mathlib

/-!
Shallow embedding of the no-code form builder's rule engine:
schema/field data model (src/types), conditional-visibility evaluation and
the validation engine (src/validation), schema utilities (create / clone /
remove-with-cleanup / cycle detection / reorder) and the store-level field
mutations (src/store).  JavaScript runtime values are modelled by the
`Value` inductive; machine numbers by `Int`/`Nat`; the injected clock and
the uuid generator by explicit `now` / `newId` parameters, as the spec
itself prescribes for the "current time" dependency.
-/

namespace FormBuilder

/-- Supported field types (src/types `FieldType`).  The TS literal
`'section'` is a Lean keyword, rendered here as `section_`. -/
inductive FieldType where
  | text | email | password | number | textarea | select | radio
  | checkbox | date | file | switch | rating | range | hidden
  | section_ | conditional
deriving DecidableEq, Repr

/-- Field categories (src/types `FieldCategory`). -/
inductive FieldCategory where
  | input | choice | layout | special
deriving DecidableEq, Repr

/-- Conditional operators (src/types `ConditionOperator`). -/
inductive ConditionOperator where
  | equals | notEquals | contains | notContains
  | greaterThan | lessThan | greaterThanOrEqual | lessThanOrEqual
  | isEmpty | isNotEmpty
deriving DecidableEq, Repr

/-- Logic operator for combining rules (src/types `LogicOperator`). -/
inductive LogicOperator where
  | AND | OR
deriving DecidableEq, Repr

/-- Validation rule kinds (src/types `ValidationType`). -/
inductive ValidationType where
  | required | minLength | maxLength | min | max
  | pattern | email | url | custom
deriving DecidableEq, Repr

/-- A JS `File` object as far as the engine reads it: `name`, `type`
(MIME string) and `size` in bytes. -/
structure JsFile where
  name : String
  type : String
  size : Nat
deriving DecidableEq, Repr

/-- A JavaScript runtime value as the engine can observe it
(src/types `FieldValue` plus the `unknown` rule values): string, number,
boolean, array, file, `null` or `undefined`.  Numbers are modelled by
`Int` (the engine only compares them). -/
inductive Value where
  | vstr : String → Value
  | vnum : Int → Value
  | vbool : Bool → Value
  | varr : List Value → Value
  | vfile : JsFile → Value
  | vnull : Value
  | vundef : Value
deriving Repr

/-- JS strict equality `===` on the values above.  Primitives compare
structurally; arrays and files are objects and compare by reference, and
the schema's literal and the runtime value are always distinct objects,
so those comparisons are `false`; `null === undefined` is `false`. -/
def jsEq : Value → Value → Bool
  | .vstr a, .vstr b => a == b
  | .vnum a, .vnum b => a == b
  | .vbool a, .vbool b => a == b
  | .vnull, .vnull => true
  | .vundef, .vundef => true
  | _, _ => false

/-- A single validation rule (src/types `ValidationRule`): `value` is an
optional string-or-number scalar, carried here as a `Value`. -/
structure ValidationRule where
  type : ValidationType
  value : Option Value := none
  message : String
  async : Option Bool := none
deriving Repr

/-- A conditional visibility rule (src/types `ConditionalRule`). -/
structure ConditionalRule where
  field : String
  operator : ConditionOperator
  value : Value
deriving Repr

/-- Conditional visibility configuration (src/types `FieldConditions`).
The TS key `show` is a Lean keyword, rendered `show_`. -/
structure FieldConditions where
  show_ : Bool
  rules : List ConditionalRule
  logic : LogicOperator
deriving Repr

/-- One option of a choice field (src/types `FieldOption`). -/
structure FieldOption where
  label : String
  value : String
  disabled : Option Bool := none
deriving Repr

/-- Field configuration.  The TS source is a union of per-type interfaces
consumed through `'key' in config` presence checks, so the faithful model
is a single record of optional keys: `none` means the key is absent. -/
structure FieldConfig where
  placeholder : Option String := none
  required : Option Bool := none
  defaultValue : Option Value := none
  disabled : Option Bool := none
  readonly : Option Bool := none
  validation : Option (List ValidationRule) := none
  helpText : Option String := none
  minLength : Option Int := none
  maxLength : Option Int := none
  pattern : Option String := none
  min : Option Int := none
  max : Option Int := none
  step : Option Int := none
  options : Option (List FieldOption) := none
  multiple : Option Bool := none
  searchable : Option Bool := none
  inline : Option Bool := none
  minSelections : Option Nat := none
  maxSelections : Option Nat := none
  accept : Option String := none
  maxSize : Option Nat := none
  maxRating : Option Nat := none
  icon : Option String := none
  heading : Option String := none
  description : Option String := none
  divider : Option Bool := none
  showValue : Option Bool := none
deriving Repr

/-- Complete field schema (src/types `FieldSchema`). -/
structure FieldSchema where
  id : String
  type : FieldType
  label : String
  config : FieldConfig
  conditions : Option FieldConditions := none
  order : Nat
deriving Repr

/-- Form metadata (src/types `FormMetadata`); timestamps are opaque ISO
strings. -/
structure FormMetadata where
  title : String
  description : Option String := none
  createdAt : String
  updatedAt : String
deriving Repr

/-- Submit-button settings (src/types `FormSettings.submitButton`). -/
structure SubmitButton where
  text : String
  enabled : Bool
deriving Repr

/-- Form settings (src/types `FormSettings`). -/
structure FormSettings where
  submitButton : SubmitButton
  successMessage : String
  redirectUrl : Option String := none
deriving Repr

/-- Complete form schema (src/types `FormSchema`). -/
structure FormSchema where
  version : String
  id : String
  metadata : FormMetadata
  fields : List FieldSchema
  settings : FormSettings
deriving Repr

/-- Runtime answer data (src/types `FormData`): total lookup from field id
to value; a key absent from the JS record reads as `undefined`, which the
concrete data functions encode by returning `Value.vundef`. -/
def FormData := String → Value

/-- Validation result for a single field (src/types `ValidationResult`). -/
structure ValidationResult where
  valid : Bool
  error : Option String := none
deriving DecidableEq, Repr

/-- Whole-form validation result (src/types `FormValidationResult`); the
JS object `errors` is modelled as an insertion-ordered association list. -/
structure FormValidationResult where
  valid : Bool
  errors : List (String × String)
deriving DecidableEq, Repr

/-- Per-field registry entry (src/types `FieldDefinition`). -/
structure FieldDefinition where
  type : FieldType
  category : FieldCategory
  icon : String
  label : String
  description : String
  defaultConfig : FieldConfig
deriving Repr

/-- Error message constants (src/constants `ERROR_MESSAGES`). -/
def ERROR_REQUIRED : String := "This field is required"

/-- Error message for a malformed email (src/constants). -/
def ERROR_INVALID_EMAIL : String := "Please enter a valid email address"

/-- Error message for a malformed URL (src/constants). -/
def ERROR_INVALID_URL : String := "Please enter a valid URL"

/-- Error message for a too-short string (src/constants `MIN_LENGTH`). -/
def ERROR_MIN_LENGTH (n : Int) : String := s!"Minimum length is {n} characters"

/-- Error message for a too-long string (src/constants `MAX_LENGTH`). -/
def ERROR_MAX_LENGTH (n : Int) : String := s!"Maximum length is {n} characters"

/-- Error message for a too-small number (src/constants `MIN_VALUE`). -/
def ERROR_MIN_VALUE (n : Int) : String := s!"Minimum value is {n}"

/-- Error message for a too-large number (src/constants `MAX_VALUE`). -/
def ERROR_MAX_VALUE (n : Int) : String := s!"Maximum value is {n}"

/-- Error message for a regex mismatch (src/constants `PATTERN_MISMATCH`). -/
def ERROR_PATTERN_MISMATCH : String := "Invalid format"

/-- Renders `maxSize` bytes in megabytes the way the source does:
`(maxSize / 1048576).toFixed(1)` then `parseFloat`.  The float arithmetic
is modelled by rounding to the nearest tenth of a megabyte; `parseFloat`
of a `.0` string drops the fractional part. -/
def fileSizeMbText (maxSize : Nat) : String :=
  let tenths := (maxSize * 10 + 524288) / 1048576
  if tenths % 10 == 0 then toString (tenths / 10)
  else s!"{tenths / 10}.{tenths % 10}"

/-- Error message for an oversized file (src/constants `FILE_TOO_LARGE`,
applied to the MB value computed in src/validation). -/
def ERROR_FILE_TOO_LARGE (maxSize : Nat) : String :=
  s!"File size must be less than {fileSizeMbText maxSize}MB"

/-- Error message for a rejected file type (src/constants). -/
def ERROR_INVALID_FILE_TYPE : String := "Invalid file type"

/-- Error message for too few checkbox selections (src/constants). -/
def ERROR_MIN_SELECTIONS (n : Nat) : String :=
  s!"Please select at least {n} option(s)"

/-- Error message for too many checkbox selections (src/constants). -/
def ERROR_MAX_SELECTIONS (n : Nat) : String :=
  s!"Please select at most {n} option(s)"

/-- Emptiness test (src/validation `isEmpty`): `null`/`undefined`, a
string that is blank after trimming, and a zero-length array are empty;
everything else is not. -/
def isEmptyJs : Value → Bool
  | .vnull => true
  | .vundef => true
  | .vstr s => s.trim == ""
  | .varr xs => xs.isEmpty
  | _ => false

/-- JS `||` fallback on message strings: the empty string is falsy, so it
falls through to the default message. -/
def jsOrElse (m d : String) : String := if m == "" then d else m

/-- Language of the fixed email regex in src/validation,
`^[^\s@]+@[^\s@]+\.[^\s@]+$`: exactly one `@`; a nonempty
whitespace-free local part; after the `@`, a whitespace-free part
containing a dot that is neither its first nor its last character. -/
def emailRegexAccepts (s : String) : Bool :=
  match s.splitOn "@" with
  | [a, b] =>
    let al := a.toList
    let bl := b.toList
    !al.isEmpty && al.all (fun c => !c.isWhitespace) &&
      bl.all (fun c => !c.isWhitespace) &&
      ((bl.drop 1).dropLast.contains '.')
  | _ => false

/-- Success of JS `new URL(value)` (src/validation `url` rule), modelled
as: an absolute URL begins with an ASCII-letter scheme made of
letters, digits, `+`, `-`, `.`, terminated by a colon.  Finer WHATWG
failure modes are outside this embedding; no claim exercises them. -/
def urlParsesJs (s : String) : Bool :=
  match s.toList with
  | [] => false
  | c :: rest =>
    c.isAlpha && rest.contains ':' &&
      (rest.takeWhile (fun d => d != ':')).all
        (fun d => d.isAlphanum || d == '+' || d == '-' || d == '.')

/-- Result of building a JS `RegExp` from `pat` and testing `input`
(src/validation `pattern` rule); `none` models a pattern that does not
compile, which the engine treats as "rule does not apply".  A general
regex engine is outside this shallow embedding, so every pattern is
modelled as non-compiling; no claim exercises `pattern` rules. -/
def jsRegexTest (pat input : String) : Option Bool := none

/-- Validate a single declared rule (src/validation `validateRule`).  The
`field` argument is accepted and unused, as in the source. -/
def validateRule (rule : ValidationRule) (value : Value) (field : FieldSchema) :
    ValidationResult :=
  match rule.type with
  | .required =>
    if isEmptyJs value then
      { valid := false, error := some (jsOrElse rule.message ERROR_REQUIRED) }
    else { valid := true }
  | .minLength =>
    match value, rule.value with
    | .vstr s, some (.vnum n) =>
      if (s.length : Int) < n then
        { valid := false, error := some (jsOrElse rule.message (ERROR_MIN_LENGTH n)) }
      else { valid := true }
    | _, _ => { valid := true }
  | .maxLength =>
    match value, rule.value with
    | .vstr s, some (.vnum n) =>
      if (s.length : Int) > n then
        { valid := false, error := some (jsOrElse rule.message (ERROR_MAX_LENGTH n)) }
      else { valid := true }
    | _, _ => { valid := true }
  | .min =>
    match value, rule.value with
    | .vnum x, some (.vnum n) =>
      if x < n then
        { valid := false, error := some (jsOrElse rule.message (ERROR_MIN_VALUE n)) }
      else { valid := true }
    | _, _ => { valid := true }
  | .max =>
    match value, rule.value with
    | .vnum x, some (.vnum n) =>
      if x > n then
        { valid := false, error := some (jsOrElse rule.message (ERROR_MAX_VALUE n)) }
      else { valid := true }
    | _, _ => { valid := true }
  | .pattern =>
    match value, rule.value with
    | .vstr s, some (.vstr p) =>
      match jsRegexTest p s with
      | some b =>
        if !b then
          { valid := false, error := some (jsOrElse rule.message ERROR_PATTERN_MISMATCH) }
        else { valid := true }
      | none => { valid := true }
    | _, _ => { valid := true }
  | .email =>
    match value with
    | .vstr s =>
      if !emailRegexAccepts s then
        { valid := false, error := some (jsOrElse rule.message ERROR_INVALID_EMAIL) }
      else { valid := true }
    | _ => { valid := true }
  | .url =>
    match value with
    | .vstr s =>
      if urlParsesJs s then { valid := true }
      else { valid := false, error := some (jsOrElse rule.message ERROR_INVALID_URL) }
    | _ => { valid := true }
  | .custom => { valid := true }

/-- File accept-list test (src/validation `isFileTypeAccepted`). -/
def isFileTypeAccepted (f : JsFile) (acceptedTypes : List String) : Bool :=
  acceptedTypes.any (fun t =>
    if t.endsWith "/*" then f.type.startsWith (t.dropRight 2)
    else f.type == t || f.name.endsWith t)

/-- Field-type-specific structural checks (src/validation
`validateFieldType`).  Early returns in the source become `Option`
short-circuits here; in the file loops the first failing file determines
the result, whose message does not depend on which file failed, so an
existence test is observably identical. -/
def validateFieldType (field : FieldSchema) (value : Value) : ValidationResult :=
  match field.type with
  | .email =>
    match value with
    | .vstr s =>
      if !emailRegexAccepts s then
        { valid := false, error := some ERROR_INVALID_EMAIL }
      else { valid := true }
    | _ => { valid := true }
  | .number =>
    let minFail : Option ValidationResult :=
      match field.config.min, value with
      | some m, .vnum x =>
        if x < m then some { valid := false, error := some (ERROR_MIN_VALUE m) }
        else none
      | _, _ => none
    match minFail with
    | some r => r
    | none =>
      match field.config.max, value with
      | some m, .vnum x =>
        if x > m then { valid := false, error := some (ERROR_MAX_VALUE m) }
        else { valid := true }
      | _, _ => { valid := true }
  | .file =>
    let sizeFail : Option ValidationResult :=
      match field.config.maxSize with
      | some ms =>
        (match value with
         | .vfile f =>
           if f.size > ms then
             some { valid := false, error := some (ERROR_FILE_TOO_LARGE ms) }
           else none
         | .varr xs =>
           if xs.any (fun v => match v with | .vfile f => f.size > ms | _ => false) then
             some { valid := false, error := some (ERROR_FILE_TOO_LARGE ms) }
           else none
         | _ => none)
      | none => none
    match sizeFail with
    | some r => r
    | none =>
      match field.config.accept with
      | some acc =>
        let acceptedTypes := (acc.splitOn ",").map String.trim
        (match value with
         | .vfile f =>
           if !isFileTypeAccepted f acceptedTypes then
             { valid := false, error := some ERROR_INVALID_FILE_TYPE }
           else { valid := true }
         | .varr xs =>
           if xs.any (fun v =>
               match v with
               | .vfile f => !isFileTypeAccepted f acceptedTypes
               | _ => false) then
             { valid := false, error := some ERROR_INVALID_FILE_TYPE }
           else { valid := true }
         | _ => { valid := true })
      | none => { valid := true }
  | .checkbox =>
    let selections : Nat := match value with | .varr xs => xs.length | _ => 0
    let minFail : Option ValidationResult :=
      match field.config.minSelections with
      | some m =>
        if selections < m then
          some { valid := false, error := some (ERROR_MIN_SELECTIONS m) }
        else none
      | none => none
    match minFail with
    | some r => r
    | none =>
      match field.config.maxSelections with
      | some m =>
        if selections > m then
          { valid := false, error := some (ERROR_MAX_SELECTIONS m) }
        else { valid := true }
      | none => { valid := true }
  | _ => { valid := true }

/-- Run declared rules in list order; first failure wins (the `for` loop
in src/validation `validateField`). -/
def runValidationRules (rules : List ValidationRule) (value : Value)
    (field : FieldSchema) : Option ValidationResult :=
  match rules with
  | [] => none
  | r :: rs =>
    let res := validateRule r value field
    if res.valid then runValidationRules rs value field else some res

/-- Validate a single field value (src/validation `validateField`):
required check, empty-and-optional pass, declared rules in order, then
field-type-specific checks.  `allFormData` is accepted and unused, as in
the source. -/
def validateField (field : FieldSchema) (value : Value)
    (allFormData : Option FormData) : ValidationResult :=
  let validation := field.config.validation
  let required := field.config.required.getD false
  if required && isEmptyJs value then
    { valid := false, error := some ERROR_REQUIRED }
  else if isEmptyJs value then { valid := true }
  else
    let ruleFail : Option ValidationResult :=
      match validation with
      | some rules => runValidationRules rules value field
      | none => none
    match ruleFail with
    | some res => res
    | none =>
      let fieldTypeResult := validateFieldType field value
      if !fieldTypeResult.valid then fieldTypeResult else { valid := true }

/-- Character-list version of "starts with". -/
def listStartsWith : List Char → List Char → Bool
  | _, [] => true
  | [], _ :: _ => false
  | c :: cs, d :: ds => c == d && listStartsWith cs ds

/-- Does `sub` occur as a contiguous run inside `l`? -/
def listHasRun (l sub : List Char) : Bool :=
  match l with
  | [] => sub.isEmpty
  | _ :: cs => listStartsWith l sub || listHasRun cs sub

/-- JS substring test `s.includes(sub)`. -/
def jsStrIncludes (s sub : String) : Bool := listHasRun s.toList sub.toList

/-- Evaluate a single visibility condition (src/validation
`evaluateCondition`). -/
def evaluateCondition (operator : ConditionOperator)
    (fieldValue compareValue : Value) : Bool :=
  match operator with
  | .equals => jsEq fieldValue compareValue
  | .notEquals => !jsEq fieldValue compareValue
  | .contains =>
    match fieldValue, compareValue with
    | .vstr s, .vstr t => jsStrIncludes s t
    | .varr xs, w => xs.any (fun x => jsEq x w)
    | _, _ => false
  | .notContains =>
    match fieldValue, compareValue with
    | .vstr s, .vstr t => !jsStrIncludes s t
    | .varr xs, w => !xs.any (fun x => jsEq x w)
    | _, _ => true
  | .greaterThan =>
    match fieldValue, compareValue with
    | .vnum a, .vnum b => decide (a > b)
    | _, _ => false
  | .lessThan =>
    match fieldValue, compareValue with
    | .vnum a, .vnum b => decide (a < b)
    | _, _ => false
  | .greaterThanOrEqual =>
    match fieldValue, compareValue with
    | .vnum a, .vnum b => decide (a ≥ b)
    | _, _ => false
  | .lessThanOrEqual =>
    match fieldValue, compareValue with
    | .vnum a, .vnum b => decide (a ≤ b)
    | _, _ => false
  | .isEmpty => isEmptyJs fieldValue
  | .isNotEmpty => !isEmptyJs fieldValue

/-- Evaluate a field's conditional visibility (src/validation
`evaluateConditions`): no conditions means always visible; an empty rule
list yields the default `show`; otherwise per-rule results are combined
with AND/OR. -/
def evaluateConditions (field : FieldSchema) (formData : FormData)
    (allFields : List FieldSchema) : Bool :=
  match field.conditions with
  | none => true
  | some conds =>
    if conds.rules.isEmpty then conds.show_
    else
      let results := conds.rules.map (fun rule =>
        evaluateCondition rule.operator (formData rule.field) rule.value)
      match conds.logic with
      | .AND => results.all (fun r => r)
      | .OR => results.any (fun r => r)

/-- Assignment `errors[key] = msg` on a JS object modelled as an
insertion-ordered association list: an existing key keeps its position
and is overwritten, a new key is appended. -/
def objSet (m : List (String × String)) (key msg : String) :
    List (String × String) :=
  if m.any (fun p => p.1 == key) then
    m.map (fun p => if p.1 == key then (key, msg) else p)
  else m ++ [(key, msg)]

/-- Body of the loop in src/validation `validateForm`: skip hidden and
section fields, skip fields whose conditions evaluate to not visible,
otherwise validate and record a truthy error message. -/
def validateFormStep (allFields : List FieldSchema) (formData : FormData)
    (errors : List (String × String)) (field : FieldSchema) :
    List (String × String) :=
  if field.type == .hidden || field.type == .section_ then errors
  else if field.conditions.isSome && !evaluateConditions field formData allFields then
    errors
  else
    let value := formData field.id
    let result := validateField field value (some formData)
    match result.error with
    | some e => if !result.valid && e != "" then objSet errors field.id e else errors
    | none => errors

/-- Validate an entire form (src/validation `validateForm`). -/
def validateForm (fields : List FieldSchema) (formData : FormData) :
    FormValidationResult :=
  let errors := fields.foldl (validateFormStep fields formData) []
  { valid := errors.isEmpty, errors := errors }

/-- Current schema version tag (src/constants `SCHEMA_VERSION`). -/
def SCHEMA_VERSION : String := "1.0.0"

/-- Default form title (src/constants). -/
def DEFAULT_FORM_TITLE : String := "Untitled Form"

/-- Default submit button caption (src/constants). -/
def DEFAULT_SUBMIT_BUTTON_TEXT : String := "Submit"

/-- Default success message (src/constants). -/
def DEFAULT_SUCCESS_MESSAGE : String :=
  "Thank you! Your form has been submitted successfully."

/-- Field registry (src/schema `FIELD_REGISTRY` read through
`getFieldDefinition`): the static per-type defaults. -/
def getFieldDefinition : FieldType → FieldDefinition
  | .text =>
    { type := .text, category := .input, icon := "📝", label := "Text Input",
      description := "Single line text input",
      defaultConfig :=
        { placeholder := some "Enter text...",
          required := some false, defaultValue := some (.vstr "") } }
  | .email =>
    { type := .email, category := .input, icon := "📧", label := "Email",
      description := "Email address input with validation",
      defaultConfig :=
        { placeholder := some "email@example.com",
          required := some false, defaultValue := some (.vstr ""),
          validation := some
            [{ type := .email,
               message := "Please enter a valid email address" }] } }
  | .password =>
    { type := .password, category := .input, icon := "🔒", label := "Password",
      description := "Password input field",
      defaultConfig :=
        { placeholder := some "Enter password...",
          required := some false, defaultValue := some (.vstr "") } }
  | .number =>
    { type := .number, category := .input, icon := "🔢", label := "Number",
      description := "Numeric input with min/max validation",
      defaultConfig :=
        { placeholder := some "Enter number...",
          required := some false, defaultValue := some (.vstr "") } }
  | .textarea =>
    { type := .textarea, category := .input, icon := "📄", label := "Textarea",
      description := "Multi-line text input",
      defaultConfig :=
        { placeholder := some "Enter text...",
          required := some false, defaultValue := some (.vstr "") } }
  | .select =>
    { type := .select, category := .choice, icon := "📋", label := "Dropdown",
      description := "Select from a list of options",
      defaultConfig :=
        { placeholder := some "Select an option...",
          required := some false,
          options := some
            [{ label := "Option 1", value := "option1" },
             { label := "Option 2", value := "option2" },
             { label := "Option 3", value := "option3" }] } }
  | .radio =>
    { type := .radio, category := .choice, icon := "🔘", label := "Radio Group",
      description := "Choose one option from a list",
      defaultConfig :=
        { required := some false,
          options := some
            [{ label := "Option 1", value := "option1" },
             { label := "Option 2", value := "option2" },
             { label := "Option 3", value := "option3" }],
          inline := some false } }
  | .checkbox =>
    { type := .checkbox, category := .choice, icon := "☑️",
      label := "Checkbox Group", description := "Choose multiple options",
      defaultConfig :=
        { required := some false,
          options := some
            [{ label := "Option 1", value := "option1" },
             { label := "Option 2", value := "option2" },
             { label := "Option 3", value := "option3" }],
          inline := some false } }
  | .date =>
    { type := .date, category := .input, icon := "📅", label := "Date Picker",
      description := "Select a date",
      defaultConfig :=
        { required := some false, defaultValue := some (.vstr "") } }
  | .file =>
    { type := .file, category := .input, icon := "📎", label := "File Upload",
      description := "Upload one or more files",
      defaultConfig :=
        { required := some false, multiple := some false,
          maxSize := some 5242880 } }
  | .switch =>
    { type := .switch, category := .input, icon := "🔄", label := "Switch/Toggle",
      description := "On/off toggle switch",
      defaultConfig :=
        { required := some false, defaultValue := some (.vbool false) } }
  | .rating =>
    { type := .rating, category := .input, icon := "⭐", label := "Rating",
      description := "Star rating input",
      defaultConfig :=
        { required := some false, maxRating := some 5,
          icon := some "star" } }
  | .range =>
    { type := .range, category := .input, icon := "📊", label := "Range Slider",
      description := "Select a value from a range",
      defaultConfig :=
        { required := some false, min := some 0,
          max := some 100, step := some 1, showValue := some true } }
  | .hidden =>
    { type := .hidden, category := .special, icon := "👁️", label := "Hidden Field",
      description := "Hidden input for tracking data",
      defaultConfig := { defaultValue := some (.vstr "") } }
  | .section_ =>
    { type := .section_, category := .layout, icon := "📏", label := "Section",
      description := "Visual divider with optional heading",
      defaultConfig :=
        { heading := some "Section Heading",
          description := some "", divider := some true } }
  | .conditional =>
    { type := .conditional, category := .special, icon := "🔀",
      label := "Conditional Field",
      description := "Field with visibility conditions",
      defaultConfig := { required := some false } }

/-- Create a new field schema (src/schema `createFieldSchema`); the
`uuidv4()` call is modelled by the injected fresh id `newId`. -/
def createFieldSchema (newId : String) (type : FieldType) (order : Nat) :
    FieldSchema :=
  let definition := getFieldDefinition type
  { id := newId, type := type, label := definition.label,
    config := definition.defaultConfig, order := order }

/-- Stamp the metadata timestamp (src/schema `updateFormTimestamp`); the
current time is the injected value `now`. -/
def updateFormTimestamp (now : String) (schema : FormSchema) : FormSchema :=
  { schema with metadata := { schema.metadata with updatedAt := now } }

/-- Migrate a schema to the current version (src/schema `migrateSchema`):
a copy whose `version` is stamped to `SCHEMA_VERSION`; the version-gated
transform chain is empty in the current single version. -/
def migrateSchema (schema : FormSchema) : FormSchema :=
  { schema with version := SCHEMA_VERSION }

/-- Clone a field with a new id (src/schema `cloneField`); `uuidv4()` is
the injected `newId`. -/
def cloneField (newId : String) (field : FieldSchema) (newOrder : Nat) :
    FieldSchema :=
  { field with
      id := newId, order := newOrder,
      label := field.label ++ " (Copy)" }

/-- Per-field sweep of src/schema `removeFieldWithCleanup`: drop every
rule that references the removed id; if no rules remain, drop the
`conditions` object entirely. -/
def cleanupField (fieldId : String) (field : FieldSchema) : FieldSchema :=
  match field.conditions with
  | some conds =>
    let cleanedRules := conds.rules.filter (fun rule => rule.field != fieldId)
    if cleanedRules.isEmpty then { field with conditions := none }
    else { field with conditions := some { conds with rules := cleanedRules } }
  | none => field

/-- Remove a field and clean up dependent rules (src/schema
`removeFieldWithCleanup`). -/
def removeFieldWithCleanup (fields : List FieldSchema) (fieldId : String) :
    List FieldSchema :=
  let updatedFields := fields.filter (fun f => f.id != fieldId)
  updatedFields.map (cleanupField fieldId)

/-- The targets of a field's conditional rules, in rule order. -/
def ruleTargets (field : FieldSchema) : List String :=
  match field.conditions with
  | some conds => conds.rules.map (fun rule => rule.field)
  | none => []

/-- A JS `Set` built by inserting the elements of `l` left to right:
first occurrences, in insertion order. -/
def dedupIns (l : List String) : List String :=
  l.foldl (fun acc x => if x ∈ acc then acc else acc ++ [x]) []

/-- Lookup in the dependency `Map` of src/schema
`detectCircularDependencies`: the map is built by iterating `fields` and
calling `set(field.id, deps)`, so a duplicate id keeps the last write. -/
def depsMapGet (fields : List FieldSchema) (id : String) :
    Option (List String) :=
  ((fields.filter (fun f => f.id == id)).getLast?).map
    (fun f => dedupIns (ruleTargets f))

/-- Mutable state of the depth-first search in src/schema
`detectCircularDependencies`: the `visited`, `recursionStack` and
`cycles` collections (the two JS `Set`s modelled as insertion-ordered
lists of distinct elements). -/
structure DfsSt where
  visited : List String
  stack : List String
  cycles : List String
deriving Repr

/-- Loop body combinator for `for (const dep of deps) if (hasCycle(dep))
return true;`: once the flag is true the remaining elements are skipped
and the state is frozen, exactly the early return. -/
def stepFold (g : String → DfsSt → Bool × DfsSt) (ds : List String)
    (acc : Bool × DfsSt) : Bool × DfsSt :=
  ds.foldl (fun acc d => if acc.1 then acc else g d acc.2) acc

/-- The recursive `hasCycle` of src/schema `detectCircularDependencies`.
JS recursion carries no fuel; `fuel` bounds the recursion depth, which is
at most the number of distinct ids ever marked visited, so any fuel
larger than the total number of ids in play makes the `0` branch
unreachable and this function extensionally equal to the source. -/
def dfsGo (deps : String → Option (List String)) :
    Nat → String → DfsSt → Bool × DfsSt
  | 0, _, s => (false, s)
  | Nat.succ fuel, f, s =>
    if f ∈ s.stack then (true, { s with cycles := s.cycles ++ [f] })
    else if f ∈ s.visited then (false, s)
    else
      let s1 : DfsSt :=
        { s with visited := s.visited ++ [f], stack := s.stack ++ [f] }
      let deplist := (deps f).getD []
      let r := stepFold (fun d t => dfsGo deps fuel d t) deplist (false, s1)
      if r.1 then (true, r.2)
      else (false, { r.2 with stack := r.2.stack.filter (fun x => x != f) })

/-- Total number of conditional rules across all fields. -/
def totalRules (fields : List FieldSchema) : Nat :=
  (fields.map (fun f => (ruleTargets f).length)).sum

/-- Detect circular dependencies among conditional rules (src/schema
`detectCircularDependencies`): run the depth-first search from every not
yet visited field id and return the recorded cycle re-entry points.  The
fuel `fields.length + totalRules fields + 1` strictly exceeds the number
of distinct ids in play, so the search never runs out. -/
def detectCircularDependencies (fields : List FieldSchema) : List String :=
  let deps := depsMapGet fields
  let fuel := fields.length + totalRules fields + 1
  let finalSt := fields.foldl
    (fun (s : DfsSt) f =>
      if f.id ∈ s.visited then s else (dfsGo deps fuel f.id s).2)
    ⟨[], [], []⟩
  finalSt.cycles

/-- Renumber a field list to consecutive orders starting at `i`: the
`map((field, index) => ({ ...field, order: index }))` idiom of the
source, with the running index made explicit. -/
def renumberFrom (i : Nat) : List FieldSchema → List FieldSchema
  | [] => []
  | f :: fs => { f with order := i } :: renumberFrom (i + 1) fs

/-- Renumber every field's `order` to its index. -/
def renumber (fields : List FieldSchema) : List FieldSchema :=
  renumberFrom 0 fields

/-- JS `arr.splice(pos, 0, a)`: insert at `pos` clamped to the length. -/
def jsSpliceInsert (l : List FieldSchema) (pos : Nat) (a : FieldSchema) :
    List FieldSchema :=
  l.take pos ++ [a] ++ l.drop pos

/-- JS `arr.splice(pos, 1)`: the removed element (or `undefined` when
`pos` is out of range, in which case nothing is removed). -/
def jsSpliceRemove1 (l : List FieldSchema) (pos : Nat) :
    Option FieldSchema × List FieldSchema :=
  match l[pos]? with
  | some a => (some a, l.take pos ++ l.drop (pos + 1))
  | none => (none, l)

/-- An element of the array produced by src/schema `reorderFields`: a
genuine field, or the junk object `{ order: index }` that
`{ ...undefined, order: index }` produces after an out-of-range splice. -/
inductive JsField where
  | real : FieldSchema → JsField
  | junk : Nat → JsField
deriving Repr

/-- The final `map` of src/schema `reorderFields` applied to the spliced
array, whose single inserted element is `removed` and may be
`undefined`. -/
def finishReorder (i : Nat) : List (Option FieldSchema) → List JsField
  | [] => []
  | some f :: vs => .real { f with order := i } :: finishReorder (i + 1) vs
  | none :: vs => .junk i :: finishReorder (i + 1) vs

/-- Reorder a field array (src/schema `reorderFields`), with the exact JS
splice semantics: no bounds check, so an out-of-range `fromIndex` removes
nothing and inserts `undefined`, which the final map turns into a junk
`{ order: index }` object. -/
def reorderFieldsJs (fields : List FieldSchema) (fromIndex toIndex : Nat) :
    List JsField :=
  let rem := jsSpliceRemove1 fields fromIndex
  let inserted : List (Option FieldSchema) :=
    (rem.2.map some).take toIndex ++ [rem.1] ++ (rem.2.map some).drop toIndex
  finishReorder 0 inserted

/-- The in-range core of `reorderFields`: move the element at `i` to
position `j` (clamped), before renumbering. -/
def moveField (fields : List FieldSchema) (i j : Nat) : List FieldSchema :=
  match fields[i]? with
  | some a =>
    let rest := fields.take i ++ fields.drop (i + 1)
    rest.take j ++ [a] ++ rest.drop j
  | none => fields

/-- A shallow-merge update `{ ...field, ...updates }` for a TS
`Partial<FieldSchema>`: each key is either absent (`none`) or present and
overriding, including a present-`conditions` key that may itself carry
`none`. -/
structure FieldUpdate where
  id : Option String := none
  type : Option FieldType := none
  label : Option String := none
  config : Option FieldConfig := none
  conditions : Option (Option FieldConditions) := none
  order : Option Nat := none
deriving Repr

/-- Apply a shallow-merge update to a field. -/
def applyUpdate (field : FieldSchema) (u : FieldUpdate) : FieldSchema :=
  { id := u.id.getD field.id, type := u.type.getD field.type,
    label := u.label.getD field.label, config := u.config.getD field.config,
    conditions := u.conditions.getD field.conditions,
    order := u.order.getD field.order }

/-- Store action `addField` (src/store): insert a freshly created field
at `position` (default: end), renumber all orders, stamp the timestamp.
`now` and `newId` are the injected clock and uuid. -/
def addField (now newId : String) (schema : FormSchema) (type : FieldType)
    (position : Option Nat) : FormSchema :=
  let insertPosition := position.getD schema.fields.length
  let newField := createFieldSchema newId type insertPosition
  let updatedFields := jsSpliceInsert schema.fields insertPosition newField
  updateFormTimestamp now { schema with fields := renumber updatedFields }

/-- Store action `updateField` (src/store): shallow-merge the update into
the field with matching id, then stamp the timestamp — unconditionally,
even when no field matches. -/
def updateField (now : String) (schema : FormSchema) (fieldId : String)
    (updates : FieldUpdate) : FormSchema :=
  let updatedFields := schema.fields.map (fun field =>
    if field.id == fieldId then applyUpdate field updates else field)
  updateFormTimestamp now { schema with fields := updatedFields }

/-- Store action `removeField` (src/store): remove with cleanup, stamp
the timestamp.  Note the source does not renumber `order` here. -/
def removeField (now : String) (schema : FormSchema) (fieldId : String) :
    FormSchema :=
  updateFormTimestamp now
    { schema with fields := removeFieldWithCleanup schema.fields fieldId }

/-- Store action `duplicateField` (src/store): clone the field with a new
id right after the source field, renumber, stamp the timestamp; no-op
when the id is absent. -/
def duplicateField (now newId : String) (schema : FormSchema)
    (fieldId : String) : FormSchema :=
  match schema.fields.findIdx? (fun f => f.id == fieldId) with
  | none => schema
  | some fieldIndex =>
    match schema.fields[fieldIndex]? with
    | none => schema
    | some field =>
      let newField := cloneField newId field (fieldIndex + 1)
      let updatedFields := jsSpliceInsert schema.fields (fieldIndex + 1) newField
      updateFormTimestamp now { schema with fields := renumber updatedFields }

/-- Holds when every field's `order` equals its index, counting from `i`. -/
def ordersOkFrom (i : Nat) : List FieldSchema → Bool
  | [] => true
  | f :: fs => (f.order == i) && ordersOkFrom (i + 1) fs

/-- The spec's order invariant, `fields[i].order === i` for all `i`. -/
def ordersOk (fields : List FieldSchema) : Bool := ordersOkFrom 0 fields

/-- The spec's id-uniqueness invariant. -/
def uniqueIds (fields : List FieldSchema) : Prop :=
  (fields.map (fun f => f.id)).Nodup

instance (fields : List FieldSchema) : Decidable (uniqueIds fields) := by
  unfold uniqueIds; infer_instance

/-- All ids that can ever be marked visited by the cycle search: the
field ids plus every rule target. -/
def idUniverse (fields : List FieldSchema) : Finset String :=
  (fields.map (fun f => f.id) ++ (fields.map ruleTargets).flatten).toFinset

/-- Invariant of the depth-first search state: every visited id lies in
the id universe `U`, and the recursion stack holds visited ids only. -/
def dfsInv (U : Finset String) (s : DfsSt) : Prop :=
  (∀ x ∈ s.visited, x ∈ U) ∧ (∀ x ∈ s.stack, x ∈ s.visited)

/-- How one `hasCycle` call (or one run of its dependency loop) moves the
search state: visited grows, cycles only get appended, a `false` return
restores the stack and leaves cycles untouched, a `true` return
guarantees a recorded cycle, and "`S` visited implies a recorded cycle"
is preserved. -/
def dfsStep (S : String) (s : DfsSt) (b : Bool) (s' : DfsSt) : Prop :=
  (∀ x ∈ s.visited, x ∈ s'.visited) ∧
  (∃ t, s'.cycles = s.cycles ++ t) ∧
  (b = false → s'.stack = s.stack ∧ s'.cycles = s.cycles) ∧
  (b = true → s'.cycles ≠ []) ∧
  ((S ∈ s.visited → s.cycles ≠ []) → S ∈ s'.visited → s'.cycles ≠ [])

/-- The error-map entry a validation result produces in `validateForm`:
the message, when the result is invalid and carries a truthy (nonempty)
message — the `!result.valid && result.error` insertion guard of the
source. -/
def errorEntryOf (r : ValidationResult) : Option String :=
  match r.error with
  | some e => if !r.valid && e != "" then some e else none
  | none => none

/-- The error-map entry `validateForm` records for one field: nothing
for hidden/section fields or fields whose conditions evaluate to not
visible, otherwise the entry of its `validateField` result. -/
def fieldErrorEntry (allFields : List FieldSchema) (d : FormData)
    (f : FieldSchema) : Option String :=
  if f.type == .hidden || f.type == .section_ then none
  else if f.conditions.isSome && !evaluateConditions f d allFields then none
  else errorEntryOf (validateField f (d f.id) (some d))

/-- A plain text field with no conditions, used as concrete test data. -/
def demoTextField (id : String) (order : Nat) : FieldSchema :=
  { id := id, type := .text, label := id, config := {}, order := order }

/-- A text field whose single conditional rule depends on `target`. -/
def demoDepField (id target : String) : FieldSchema :=
  { id := id, type := .text, label := id, config := {}, order := 0,
    conditions := some
      { show_ := true, logic := .AND,
        rules := [{ field := target, operator := .equals,
                    value := .vstr "yes" }] } }

/-- A text field carrying a conditions object with an empty rule list and
default visibility `sh`. -/
def demoShowField (id : String) (sh : Bool) : FieldSchema :=
  { id := id, type := .text, label := id, config := {}, order := 0,
    conditions := some { show_ := sh, rules := [], logic := .AND } }

/-- A section (layout) field. -/
def demoSectionField (id : String) (order : Nat) : FieldSchema :=
  { id := id, type := .section_, label := "Section", config := {},
    order := order }

/-- A required text field. -/
def demoRequiredField (id : String) (order : Nat) : FieldSchema :=
  { id := id, type := .text, label := id,
    config := { required := some true }, order := order }

/-- Concrete form metadata with an opaque timestamp `t0`. -/
def demoMetadata : FormMetadata :=
  { title := "Untitled Form", description := some "",
    createdAt := "t0", updatedAt := "t0" }

/-- Concrete default form settings. -/
def demoSettings : FormSettings :=
  { submitButton := { text := "Submit", enabled := true },
    successMessage := "Thank you! Your form has been submitted successfully." }

/-- A concrete two-field schema satisfying the order invariant. -/
def demoSchema : FormSchema :=
  { version := "1.0.0", id := "form-1", metadata := demoMetadata,
    fields := [demoTextField "a" 0, demoTextField "b" 1],
    settings := demoSettings }

/-! Theorems.  Each claim of the specification gets one theorem below,
plus a closed witness instance when the theorem carries hypotheses. -/

/-- C9: migration is idempotent, and is the identity transform apart
from stamping the schema's `version` field with the current version
tag. -/
theorem migrateSchema_idempotent_identity (s : FormSchema) :
    migrateSchema (migrateSchema s) = migrateSchema s ∧
    (migrateSchema s).version = SCHEMA_VERSION ∧
    (migrateSchema s).id = s.id ∧
    (migrateSchema s).metadata = s.metadata ∧
    (migrateSchema s).fields = s.fields ∧
    (migrateSchema s).settings = s.settings :=
  ⟨rfl, rfl, rfl, rfl, rfl, rfl⟩

/-- C6: `contains` is the substring test when both operands are strings,
the element-membership test when the dependent value is an array, and
`false` for any other type combination; `notContains` is the
corresponding negation, and `true` for any other combination. -/
theorem contains_operator_semantics (v w : Value) :
    (∀ s t, v = .vstr s → w = .vstr t →
      evaluateCondition .contains v w = jsStrIncludes s t ∧
      evaluateCondition .notContains v w = !jsStrIncludes s t) ∧
    (∀ xs, v = .varr xs →
      evaluateCondition .contains v w = xs.any (fun x => jsEq x w) ∧
      evaluateCondition .notContains v w = !xs.any (fun x => jsEq x w)) ∧
    ((∀ s t, ¬(v = .vstr s ∧ w = .vstr t)) → (∀ xs, v ≠ .varr xs) →
      evaluateCondition .contains v w = false ∧
      evaluateCondition .notContains v w = true) := by
  refine ⟨?_, ?_, ?_⟩
  · rintro s t rfl rfl; exact ⟨rfl, rfl⟩
  · rintro xs rfl; exact ⟨rfl, rfl⟩
  · intro h1 h2
    cases v <;> cases w <;>
      first
        | exact absurd ⟨rfl, rfl⟩ (h1 _ _)
        | exact absurd rfl (h2 _)
        | exact ⟨rfl, rfl⟩

/-- Witness for C6 at concrete operands of each kind. -/
theorem contains_operator_semantics_witness :
    evaluateCondition .contains (.vstr "hello") (.vstr "ell") =
      jsStrIncludes "hello" "ell" ∧
    evaluateCondition .contains (.varr [.vstr "x"]) (.vstr "x") =
      [Value.vstr "x"].any (fun x => jsEq x (.vstr "x")) ∧
    evaluateCondition .contains (.vnum 1) (.vstr "x") = false ∧
    evaluateCondition .notContains (.vnum 1) (.vstr "x") = true := by
  refine ⟨((contains_operator_semantics _ _).1 "hello" "ell" rfl rfl).1,
    ((contains_operator_semantics _ _).2.1 [Value.vstr "x"] rfl).1, ?_, ?_⟩
  · exact ((contains_operator_semantics (.vnum 1) (.vstr "x")).2.2
      (fun s t h => Value.noConfusion h.1) (fun xs h => Value.noConfusion h)).1
  · exact ((contains_operator_semantics (.vnum 1) (.vstr "x")).2.2
      (fun s t h => Value.noConfusion h.1) (fun xs h => Value.noConfusion h)).2

/-- Helper: `every` over a mapped list is `all` of the composition. -/
theorem all_map_self {α : Type} (l : List α) (g : α → Bool) :
    ((l.map g).all fun r => r) = l.all g := by
  induction l with
  | nil => rfl
  | cons a t ih => simp [ih]

/-- Helper: `some` over a mapped list is `any` of the composition. -/
theorem any_map_self {α : Type} (l : List α) (g : α → Bool) :
    ((l.map g).any fun r => r) = l.any g := by
  induction l with
  | nil => rfl
  | cons a t ih => simp [ih]

/-- C3: visibility is `true` when no conditions are present (whatever
`show` would say), exactly `show` when the rule list is empty, and
otherwise the AND/OR combination of the per-rule comparisons of
`formData[rule.field]` against `rule.value`. -/
theorem evaluateConditions_cases (f : FieldSchema) (d : FormData)
    (af : List FieldSchema) :
    (f.conditions = none → evaluateConditions f d af = true) ∧
    (∀ c, f.conditions = some c → c.rules = [] →
      evaluateConditions f d af = c.show_) ∧
    (∀ c, f.conditions = some c → c.rules ≠ [] →
      evaluateConditions f d af =
        match c.logic with
        | .AND => c.rules.all (fun r =>
            evaluateCondition r.operator (d r.field) r.value)
        | .OR => c.rules.any (fun r =>
            evaluateCondition r.operator (d r.field) r.value)) := by
  refine ⟨fun h => by simp [evaluateConditions, h], ?_, ?_⟩
  · intro c hc hr
    simp [evaluateConditions, hc, hr]
  · intro c hc hr
    have hne : c.rules.isEmpty = false := by
      cases hcr : c.rules with
      | nil => exact absurd hcr hr
      | cons a t => simp [hcr]
    cases hl : c.logic <;>
      simp [evaluateConditions, hc, hne, hl, all_map_self, any_map_self]

/-- Witness for C3: a field with no conditions, a `show := false` field
with an empty rule list, and a one-rule field under AND. -/
theorem evaluateConditions_cases_witness :
    evaluateConditions (demoTextField "a" 0) (fun _ => .vundef) [] = true ∧
    evaluateConditions (demoShowField "s" false) (fun _ => .vundef) [] =
      false ∧
    evaluateConditions (demoDepField "A" "B") (fun _ => .vstr "yes") [] =
      [({ field := "B", operator := .equals,
          value := .vstr "yes" } : ConditionalRule)].all (fun r =>
        evaluateCondition r.operator ((fun _ => Value.vstr "yes") r.field)
          r.value) := by
  refine ⟨(evaluateConditions_cases _ _ _).1 rfl, ?_, ?_⟩
  · exact (evaluateConditions_cases (demoShowField "s" false) _ _).2.1 _ rfl rfl
  · exact (evaluateConditions_cases (demoDepField "A" "B") _ _).2.2 _ rfl
      (by simp)

/-- Helper: the cleanup sweep never changes a field's id. -/
theorem cleanupField_id (i : String) (g : FieldSchema) :
    (cleanupField i g).id = g.id := by
  unfold cleanupField
  cases g.conditions with
  | none => rfl
  | some c => dsimp only; split <;> rfl

/-- Helper: the cleanup sweep never changes a field's order. -/
theorem cleanupField_order (i : String) (g : FieldSchema) :
    (cleanupField i g).order = g.order := by
  unfold cleanupField
  cases g.conditions with
  | none => rfl
  | some c => dsimp only; split <;> rfl

/-- Helper: what the cleanup sweep can leave in `conditions`: nothing, or
the original conditions with exactly the rules not referencing the
removed id, and then at least one rule survives. -/
theorem cleanupField_conditions (i : String) (g : FieldSchema) :
    (cleanupField i g).conditions = none ∨
    (∃ c, g.conditions = some c ∧
      (cleanupField i g).conditions =
        some { c with rules := c.rules.filter (fun r => r.field != i) } ∧
      c.rules.filter (fun r => r.field != i) ≠ []) := by
  unfold cleanupField
  cases hg : g.conditions with
  | none => exact Or.inl hg
  | some c =>
    dsimp only
    split
    · exact Or.inl rfl
    · rename_i hne
      exact Or.inr ⟨c, rfl, rfl, by simpa using hne⟩

/-- C2: removing a field removes every field with that id, sweeps every
surviving rule referencing it, and strips `conditions` from any field
whose rule list is emptied by the sweep. -/
theorem removeField_cleanup_spec (fields : List FieldSchema) (gId : String) :
    (∀ f ∈ removeFieldWithCleanup fields gId, f.id ≠ gId) ∧
    (∀ f ∈ removeFieldWithCleanup fields gId, ∀ c, f.conditions = some c →
      ∀ r ∈ c.rules, r.field ≠ gId) ∧
    (∀ f ∈ fields, f.id ≠ gId → ∀ c, f.conditions = some c →
      (∀ r ∈ c.rules, r.field = gId) →
      cleanupField gId f ∈ removeFieldWithCleanup fields gId ∧
      (cleanupField gId f).conditions = none) := by
  refine ⟨?_, ?_, ?_⟩
  · intro f hf
    rw [removeFieldWithCleanup, List.mem_map] at hf
    obtain ⟨g, hg, rfl⟩ := hf
    rw [List.mem_filter] at hg
    rw [cleanupField_id]
    exact bne_iff_ne.mp hg.2
  · intro f hf c hc r hr
    rw [removeFieldWithCleanup, List.mem_map] at hf
    obtain ⟨g, hg, rfl⟩ := hf
    rcases cleanupField_conditions gId g with h | ⟨c0, hc0, heq, hne⟩
    · rw [h] at hc; exact absurd hc (by simp)
    · rw [heq] at hc
      obtain rfl : { c0 with rules := c0.rules.filter (fun r => r.field != gId) } = c :=
        Option.some.inj hc
      have := (List.mem_filter.mp hr).2
      exact bne_iff_ne.mp this
  · intro f hf hne c hc hall
    constructor
    · rw [removeFieldWithCleanup]
      exact List.mem_map_of_mem _
        (List.mem_filter.mpr ⟨hf, bne_iff_ne.mpr hne⟩)
    · unfold cleanupField
      rw [hc]
      dsimp only
      have : c.rules.filter (fun r => r.field != gId) = [] := by
        rw [List.filter_eq_nil]
        intro r hr
        simp [hall r hr]
      simp [this]

/-- Witness for C2 on a concrete two-field schema where `b` depends on
`a` and `a` is removed. -/
theorem removeField_cleanup_spec_witness :
    (∀ f ∈ removeFieldWithCleanup [demoTextField "a" 0, demoDepField "b" "a"] "a",
      f.id ≠ "a") ∧
    (cleanupField "a" (demoDepField "b" "a")).conditions = none := by
  refine ⟨(removeField_cleanup_spec _ "a").1, ?_⟩
  exact ((removeField_cleanup_spec [demoTextField "a" 0, demoDepField "b" "a"]
    "a").2.2 (demoDepField "b" "a") (by simp) (by decide) _ rfl
    (by intro r hr; simp [demoDepField] at hr; rw [hr])).2

/-- C10 (implicit): a field carrying a conditions object with an empty
rule list loses that object on any unrelated removal, flipping its
default visibility from `show` (possibly `false`) to unconditionally
visible. -/
theorem remove_strips_empty_rule_conditions (fields : List FieldSchema)
    (gId : String) (f : FieldSchema) (c : FieldConditions) (d : FormData)
    (af : List FieldSchema) (hmem : f ∈ fields) (hc : f.conditions = some c)
    (hr : c.rules = []) (hne : f.id ≠ gId) :
    cleanupField gId f ∈ removeFieldWithCleanup fields gId ∧
    (cleanupField gId f).id = f.id ∧
    (cleanupField gId f).conditions = none ∧
    evaluateConditions (cleanupField gId f) d af = true ∧
    evaluateConditions f d af = c.show_ := by
  have hstrip : (cleanupField gId f).conditions = none := by
    unfold cleanupField
    rw [hc]
    simp [hr]
  refine ⟨?_, cleanupField_id _ _, hstrip, ?_, ?_⟩
  · rw [removeFieldWithCleanup]
    exact List.mem_map_of_mem _
      (List.mem_filter.mpr ⟨hmem, bne_iff_ne.mpr hne⟩)
  · simp [evaluateConditions, hstrip]
  · simp [evaluateConditions, hc, hr]

/-- Witness for C10: removing `g` strips the empty-rules conditions of
`s`, whose default visibility was `false`. -/
theorem remove_strips_empty_rule_conditions_witness :
    cleanupField "g" (demoShowField "s" false) ∈
      removeFieldWithCleanup [demoShowField "s" false, demoTextField "g" 1] "g" ∧
    (cleanupField "g" (demoShowField "s" false)).conditions = none ∧
    evaluateConditions (cleanupField "g" (demoShowField "s" false))
      (fun _ => .vundef) [] = true ∧
    evaluateConditions (demoShowField "s" false) (fun _ => .vundef) [] =
      false := by
  have h := remove_strips_empty_rule_conditions
    [demoShowField "s" false, demoTextField "g" 1] "g"
    (demoShowField "s" false) { show_ := false, rules := [], logic := .AND }
    (fun _ => .vundef) [] (by simp) rfl rfl (by decide)
  exact ⟨h.1, h.2.2.1, h.2.2.2.1, h.2.2.2.2⟩

/-- Counterexample to C8 as stated: with the id absent, `updateField`
still stamps `metadata.updatedAt`, so the schema is not returned
unchanged. -/
theorem updateField_absent_changes_timestamp :
    updateField "t1" demoSchema "zzz" {} ≠ demoSchema := fun h => by
  have h2 : ("t1" : String) = "t0" :=
    congrArg (fun s => s.metadata.updatedAt) h
  exact absurd h2 (by decide)

/-- Helper: mapping a function that fixes every element is the identity. -/
theorem map_id_of_fixpoint {l : List FieldSchema}
    {g : FieldSchema → FieldSchema} (h : ∀ f ∈ l, g f = f) : l.map g = l := by
  induction l with
  | nil => rfl
  | cons a t ih =>
    simp only [List.map_cons]
    rw [h a (by simp), ih (fun f hf => h f (List.mem_cons_of_mem _ hf))]

/-- C8 amended: with the id absent, `updateField` leaves the field list
(and everything else) unchanged except that it stamps
`metadata.updatedAt` with the injected current time. -/
theorem updateField_absent_only_stamps (now : String) (schema : FormSchema)
    (fieldId : String) (u : FieldUpdate)
    (habs : ∀ f ∈ schema.fields, f.id ≠ fieldId) :
    updateField now schema fieldId u = updateFormTimestamp now schema ∧
    (updateField now schema fieldId u).fields = schema.fields ∧
    (updateField now schema fieldId u).metadata.updatedAt = now := by
  have hmap : schema.fields.map (fun field =>
      if field.id == fieldId then applyUpdate field u else field) =
      schema.fields :=
    map_id_of_fixpoint (fun f hf => by
      have hb : (f.id == fieldId) = false := beq_eq_false_iff_ne.mpr (habs f hf)
      simp [hb])
  refine ⟨?_, ?_, rfl⟩
  · unfold updateField
    rw [hmap]
  · show schema.fields.map _ = schema.fields
    exact hmap

/-- Witness for the amended C8 at a concrete schema and absent id. -/
theorem updateField_absent_only_stamps_witness :
    updateField "t1" demoSchema "zzz" {} = updateFormTimestamp "t1" demoSchema ∧
    (updateField "t1" demoSchema "zzz" {}).fields = demoSchema.fields ∧
    (updateField "t1" demoSchema "zzz" {}).metadata.updatedAt = "t1" :=
  updateField_absent_only_stamps "t1" demoSchema "zzz" {} (by decide)

/-- C7: the source `reorderFields` performs no bounds check; with
`fromIndex` out of range it removes nothing, splices `undefined` into the
array and spreads it into a junk `{ order: index }` object — the
returned array has gained an element and lost field identity instead of
failing with an `IndexError`. -/
theorem reorderFields_out_of_range_corrupts :
    reorderFieldsJs [demoTextField "a" 0] 5 0 =
      [.junk 0, .real (demoTextField "a" 1)] ∧
    (reorderFieldsJs [demoTextField "a" 0] 5 0).length = 2 :=
  ⟨rfl, rfl⟩

/-- Helper: renumbering from `i` makes every order match its index
counted from `i`. -/
theorem ordersOkFrom_renumberFrom (l : List FieldSchema) :
    ∀ i, ordersOkFrom i (renumberFrom i l) = true := by
  induction l with
  | nil => intro i; rfl
  | cons a t ih => intro i; simp [renumberFrom, ordersOkFrom, ih]

/-- Helper: renumbering preserves the id sequence. -/
theorem renumberFrom_map_id (l : List FieldSchema) :
    ∀ i, (renumberFrom i l).map (fun f => f.id) = l.map (fun f => f.id) := by
  induction l with
  | nil => intro i; rfl
  | cons a t ih => intro i; simp [renumberFrom, ih]

/-- Helper: the id sequence of a splice insertion. -/
theorem jsSpliceInsert_map_id (l : List FieldSchema) (pos : Nat)
    (a : FieldSchema) :
    (jsSpliceInsert l pos a).map (fun f => f.id) =
      (l.map (fun f => f.id)).take pos ++
        a.id :: (l.map (fun f => f.id)).drop pos := by
  simp [jsSpliceInsert, List.map_take, List.map_drop]

/-- Helper: inserting a fresh element anywhere keeps the list
duplicate-free. -/
theorem nodup_insert_middle {ids : List String} {x : String} (p : Nat)
    (h : ids.Nodup) (hx : x ∉ ids) :
    (ids.take p ++ x :: ids.drop p).Nodup := by
  have hperm : List.Perm (ids.take p ++ x :: ids.drop p) (x :: ids) := by
    have h1 : List.Perm (ids.take p ++ x :: ids.drop p)
        (x :: (ids.take p ++ ids.drop p)) := List.perm_middle
    rwa [List.take_append_drop] at h1
  exact hperm.nodup_iff.mpr (List.nodup_cons.mpr ⟨hx, h⟩)

/-- Helper: `findIdx?` with a shifted start yields shifted indices. -/
theorem findIdx?_start_shift (p : FieldSchema → Bool) (l : List FieldSchema) :
    ∀ s, l.findIdx? p (s + 1) = (l.findIdx? p s).map (fun x => x + 1) := by
  induction l with
  | nil => intro s; rfl
  | cons a t ih =>
    intro s
    show (if p a then some (s + 1) else t.findIdx? p (s + 2)) =
      ((if p a then some s else t.findIdx? p (s + 1)).map (fun x => x + 1))
    by_cases hp : p a
    · simp [hp]
    · simp [hp, ih (s + 1)]

/-- Helper: a member id is found by `findIdx?`, together with the field
at the reported index. -/
theorem findIdx?_some_of_mem {fid : String} :
    ∀ (l : List FieldSchema), fid ∈ l.map (fun f => f.id) →
    ∃ idx fld, l.findIdx? (fun f => f.id == fid) = some idx ∧
      l[idx]? = some fld ∧ fld.id = fid := by
  intro l
  induction l with
  | nil => intro h; simp at h
  | cons a t ih =>
    intro h
    by_cases ha : a.id = fid
    · exact ⟨0, a, by show (if (a.id == fid) then _ else _) = _; simp [ha],
        by simp, ha⟩
    · have hmem : fid ∈ t.map (fun f => f.id) := by
        rcases List.mem_map.mp h with ⟨g, hg, hgid⟩
        rcases List.mem_cons.mp hg with rfl | hgt
        · exact absurd hgid ha
        · exact List.mem_map.mpr ⟨g, hgt, hgid⟩
      obtain ⟨idx, fld, hfind, hget, hid⟩ := ih hmem
      refine ⟨idx + 1, fld, ?_, by simpa using hget, hid⟩
      show (if (a.id == fid) then some 0 else t.findIdx? (fun f => f.id == fid) 1) = _
      have hb : (a.id == fid) = false := beq_eq_false_iff_ne.mpr ha
      rw [hb]
      simp only [Bool.false_eq_true, if_false]
      rw [show (1 : Nat) = 0 + 1 from rfl, findIdx?_start_shift, hfind]
      rfl

/-- Helper: the final map of `reorderFields` over an all-real spliced
array is renumbering. -/
theorem finishReorder_map_some (l : List FieldSchema) :
    ∀ i, finishReorder i (l.map some) = (renumberFrom i l).map JsField.real := by
  induction l with
  | nil => intro i; rfl
  | cons a t ih => intro i; simp [finishReorder, renumberFrom, ih]

/-- Helper: a successful single-element splice decomposes the list. -/
theorem splice_decompose {l : List FieldSchema} {i : Nat} {a : FieldSchema}
    (ha : l[i]? = some a) :
    l.take i ++ a :: l.drop (i + 1) = l := by
  have hi : i < l.length := by
    by_contra hge
    rw [List.getElem?_eq_none (Nat.le_of_not_lt hge)] at ha
    exact Option.noConfusion ha
  have hval : l[i] = a := by
    have := List.getElem?_eq_getElem hi
    rw [this] at ha
    exact Option.some.inj ha
  calc l.take i ++ a :: l.drop (i + 1)
      = l.take i ++ l[i] :: l.drop (i + 1) := by rw [hval]
    _ = l.take i ++ l.drop i := by rw [List.getElem_cons_drop]
    _ = l := List.take_append_drop i l

/-- Helper: moving an existing element is a permutation. -/
theorem moveField_perm {l : List FieldSchema} {i : Nat} {a : FieldSchema}
    (ha : l[i]? = some a) (j : Nat) :
    List.Perm (moveField l i j) l := by
  unfold moveField
  rw [ha]
  dsimp only
  set rest := l.take i ++ l.drop (i + 1) with hrest
  have h1 : List.Perm (rest.take j ++ a :: rest.drop j)
      (a :: (rest.take j ++ rest.drop j)) := List.perm_middle
  rw [List.take_append_drop] at h1
  have h2 : List.Perm (a :: rest) l := by
    rw [hrest]
    have h3 : List.Perm (l.take i ++ a :: l.drop (i + 1))
        (a :: (l.take i ++ l.drop (i + 1))) := List.perm_middle
    rw [splice_decompose ha] at h3
    exact h3.symm
  simp only [List.append_assoc, List.singleton_append]
  exact h1.trans h2

/-- Counterexample to C1 as stated: `removeField` does not renumber, so
removing the first field of the concrete two-field schema leaves the
survivor with `order = 1` at index `0`. -/
theorem removeField_breaks_order_invariant :
    ordersOk (removeField "t1" demoSchema "a").fields = false ∧
    (removeField "t1" demoSchema "a").fields.map (fun f => f.order) = [1] :=
  ⟨rfl, rfl⟩

/-- C1 amended: `addField`, `duplicateField` (on a present id) and
`reorderFields` (with an in-range `fromIndex`) renumber orders to match
indices and keep ids unique; `removeField` keeps ids unique and
preserves the surviving fields' relative order, but leaves their `order`
values as they were, so the index invariant can break. -/
theorem mutations_preserve_invariants (now newId : String)
    (schema : FormSchema) (ftype : FieldType) (position : Option Nat)
    (fieldId : String) (i j : Nat)
    (hfresh : newId ∉ schema.fields.map (fun f => f.id))
    (huniq : uniqueIds schema.fields) :
    (ordersOk (addField now newId schema ftype position).fields = true ∧
      uniqueIds (addField now newId schema ftype position).fields) ∧
    (uniqueIds (removeField now schema fieldId).fields ∧
      (removeField now schema fieldId).fields.map (fun f => f.order) =
        (schema.fields.filter (fun f => f.id != fieldId)).map
          (fun f => f.order)) ∧
    (fieldId ∈ schema.fields.map (fun f => f.id) →
      ordersOk (duplicateField now newId schema fieldId).fields = true ∧
      uniqueIds (duplicateField now newId schema fieldId).fields) ∧
    (i < schema.fields.length →
      reorderFieldsJs schema.fields i j =
        (renumber (moveField schema.fields i j)).map JsField.real ∧
      ordersOk (renumber (moveField schema.fields i j)) = true ∧
      uniqueIds (renumber (moveField schema.fields i j))) := by
  refine ⟨⟨?_, ?_⟩, ⟨?_, ?_⟩, ?_, ?_⟩
  · exact ordersOkFrom_renumberFrom _ 0
  · show ((renumber (jsSpliceInsert schema.fields _ _)).map (fun f => f.id)).Nodup
    rw [renumber, renumberFrom_map_id, jsSpliceInsert_map_id]
    exact nodup_insert_middle _ huniq hfresh
  · show (((schema.fields.filter _).map (cleanupField fieldId)).map
      (fun f => f.id)).Nodup
    rw [List.map_map]
    have hcongr : (schema.fields.filter (fun f => f.id != fieldId)).map
        ((fun f => f.id) ∘ cleanupField fieldId) =
        (schema.fields.filter (fun f => f.id != fieldId)).map (fun f => f.id) :=
      List.map_congr_left (fun g _ => cleanupField_id fieldId g)
    rw [hcongr]
    exact huniq.sublist ((List.filter_sublist _).map _)
  · show ((schema.fields.filter _).map (cleanupField fieldId)).map
      (fun f => f.order) = _
    rw [List.map_map]
    exact List.map_congr_left (fun g _ => cleanupField_order fieldId g)
  · intro hmem
    obtain ⟨idx, fld, hfind, hget, hid⟩ := findIdx?_some_of_mem _ hmem
    have hdup : duplicateField now newId schema fieldId =
        updateFormTimestamp now
          { schema with
              fields := renumber (jsSpliceInsert schema.fields (idx + 1)
                (cloneField newId fld (idx + 1))) } := by
      unfold duplicateField
      rw [hfind]
      simp only [hget]
    rw [hdup]
    refine ⟨ordersOkFrom_renumberFrom _ 0, ?_⟩
    show ((renumber (jsSpliceInsert schema.fields _ _)).map (fun f => f.id)).Nodup
    rw [renumber, renumberFrom_map_id, jsSpliceInsert_map_id]
    exact nodup_insert_middle _ huniq hfresh
  · intro hi
    obtain ⟨a, ha⟩ : ∃ a, schema.fields[i]? = some a :=
      ⟨_, List.getElem?_eq_getElem hi⟩
    refine ⟨?_, ordersOkFrom_renumberFrom _ 0, ?_⟩
    · unfold reorderFieldsJs jsSpliceRemove1 moveField
      rw [ha]
      dsimp only
      set rest := schema.fields.take i ++ schema.fields.drop (i + 1) with hrest
      have hlist : ((rest.map some).take j ++ [some a] ++ (rest.map some).drop j :
            List (Option FieldSchema)) =
          (rest.take j ++ [a] ++ rest.drop j).map some := by
        simp [List.map_take, List.map_drop]
      rw [hlist, finishReorder_map_some]
      rfl
    · show ((renumber (moveField schema.fields i j)).map (fun f => f.id)).Nodup
      rw [renumber, renumberFrom_map_id]
      have hperm := (moveField_perm ha j).map (fun f => f.id)
      exact hperm.nodup_iff.mpr huniq

/-- Witness for the amended C1 at a concrete schema, fresh id, present
id and in-range indices. -/
theorem mutations_preserve_invariants_witness :
    ordersOk (addField "t1" "c" demoSchema .text none).fields = true ∧
    uniqueIds (removeField "t1" demoSchema "a").fields ∧
    ordersOk (duplicateField "t1" "c" demoSchema "b").fields = true ∧
    ordersOk (renumber (moveField demoSchema.fields 0 1)) = true := by
  have h := mutations_preserve_invariants "t1" "c" demoSchema .text none "a"
    0 1 (by decide) (by decide)
  exact ⟨h.1.1, h.2.1.1, (h.2.2.1 (by decide)).1,
    (h.2.2.2 (by decide)).2.1⟩

/-- Helper: the min-length message is never the empty string. -/
theorem err_min_length_ne (n : Int) : ERROR_MIN_LENGTH n ≠ "" := by
  intro h
  have h2 := congrArg String.length h
  simp [ERROR_MIN_LENGTH, String.length_append] at h2
  first
    | exact absurd h2.1.1 (by decide)
    | exact absurd h2.1 (by decide)

/-- Helper: the max-length message is never the empty string. -/
theorem err_max_length_ne (n : Int) : ERROR_MAX_LENGTH n ≠ "" := by
  intro h
  have h2 := congrArg String.length h
  simp [ERROR_MAX_LENGTH, String.length_append] at h2
  first
    | exact absurd h2.1.1 (by decide)
    | exact absurd h2.1 (by decide)

/-- Helper: the min-value message is never the empty string. -/
theorem err_min_value_ne (n : Int) : ERROR_MIN_VALUE n ≠ "" := by
  intro h
  have h2 := congrArg String.length h
  simp [ERROR_MIN_VALUE, String.length_append] at h2
  first
    | exact absurd h2.1.1 (by decide)
    | exact absurd h2.1 (by decide)

/-- Helper: the max-value message is never the empty string. -/
theorem err_max_value_ne (n : Int) : ERROR_MAX_VALUE n ≠ "" := by
  intro h
  have h2 := congrArg String.length h
  simp [ERROR_MAX_VALUE, String.length_append] at h2
  first
    | exact absurd h2.1.1 (by decide)
    | exact absurd h2.1 (by decide)

/-- Helper: the oversized-file message is never the empty string. -/
theorem err_file_too_large_ne (n : Nat) : ERROR_FILE_TOO_LARGE n ≠ "" := by
  intro h
  have h2 := congrArg String.length h
  simp [ERROR_FILE_TOO_LARGE, String.length_append] at h2
  first
    | exact absurd h2.1.1 (by decide)
    | exact absurd h2.1 (by decide)

/-- Helper: the min-selections message is never the empty string. -/
theorem err_min_selections_ne (n : Nat) : ERROR_MIN_SELECTIONS n ≠ "" := by
  intro h
  have h2 := congrArg String.length h
  simp [ERROR_MIN_SELECTIONS, String.length_append] at h2
  first
    | exact absurd h2.1.1 (by decide)
    | exact absurd h2.1 (by decide)

/-- Helper: the max-selections message is never the empty string. -/
theorem err_max_selections_ne (n : Nat) : ERROR_MAX_SELECTIONS n ≠ "" := by
  intro h
  have h2 := congrArg String.length h
  simp [ERROR_MAX_SELECTIONS, String.length_append] at h2
  first
    | exact absurd h2.1.1 (by decide)
    | exact absurd h2.1 (by decide)

/-- Helper: the JS `||` fallback keeps a nonempty default nonempty. -/
theorem jsOrElse_ne_empty {m d : String} (hd : d ≠ "") : jsOrElse m d ≠ "" := by
  unfold jsOrElse
  split
  · exact hd
  · rename_i hm
    exact fun h => hm (by simp [h])

/-- Helper: a single rule validation either passes cleanly or fails with
a nonempty message. -/
theorem validateRule_ok (r : ValidationRule) (v : Value) (f : FieldSchema) :
    validateRule r v f = { valid := true } ∨
    ∃ e, validateRule r v f = { valid := false, error := some e } ∧
      e ≠ "" := by
  obtain ⟨rt, rv, rm, ra⟩ := r
  cases rt <;> simp only [validateRule, jsRegexTest] <;>
    first
      | exact Or.inl (by first | rfl | trivial)
      | (split <;>
          first
            | exact Or.inl rfl
            | exact Or.inr ⟨_, rfl, jsOrElse_ne_empty (by
                first
                  | decide
                  | apply err_min_length_ne
                  | apply err_max_length_ne
                  | apply err_min_value_ne
                  | apply err_max_value_ne)⟩
            | (split <;>
                first
                  | exact Or.inl rfl
                  | exact Or.inr ⟨_, rfl, jsOrElse_ne_empty (by
                      first
                        | decide
                        | apply err_min_length_ne
                        | apply err_max_length_ne
                        | apply err_min_value_ne
                        | apply err_max_value_ne)⟩))

/-- Helper: the field-type-specific check either passes cleanly or fails
with a nonempty message. -/
theorem validateFieldType_ok (f : FieldSchema) (v : Value) :
    validateFieldType f v = { valid := true } ∨
    ∃ e, validateFieldType f v = { valid := false, error := some e } ∧
      e ≠ "" := by
  unfold validateFieldType
  split
  · -- email
    split
    · split
      · exact Or.inr ⟨_, rfl, by decide⟩
      · exact Or.inl rfl
    · exact Or.inl rfl
  · -- number
    dsimp only
    split
    · rename_i r heq
      split at heq
      · split at heq
        · obtain rfl : _ = r := Option.some.inj heq
          exact Or.inr ⟨_, rfl, err_min_value_ne _⟩
        · exact absurd heq (by simp)
      · exact absurd heq (by simp)
    · split
      · split
        · exact Or.inr ⟨_, rfl, err_max_value_ne _⟩
        · exact Or.inl rfl
      · exact Or.inl rfl
  · -- file
    dsimp only
    split
    · rename_i r heq
      split at heq
      · split at heq
        · split at heq
          · obtain rfl : _ = r := Option.some.inj heq
            exact Or.inr ⟨_, rfl, err_file_too_large_ne _⟩
          · exact absurd heq (by simp)
        · split at heq
          · obtain rfl : _ = r := Option.some.inj heq
            exact Or.inr ⟨_, rfl, err_file_too_large_ne _⟩
          · exact absurd heq (by simp)
        · exact absurd heq (by simp)
      · exact absurd heq (by simp)
    · split
      · split
        · split
          · exact Or.inr ⟨_, rfl, by decide⟩
          · exact Or.inl rfl
        · split
          · exact Or.inr ⟨_, rfl, by decide⟩
          · exact Or.inl rfl
        · exact Or.inl rfl
      · exact Or.inl rfl
  · -- checkbox
    dsimp only
    split
    · rename_i r heq
      split at heq
      · split at heq
        · obtain rfl : _ = r := Option.some.inj heq
          exact Or.inr ⟨_, rfl, err_min_selections_ne _⟩
        · exact absurd heq (by simp)
      · exact absurd heq (by simp)
    · split
      · split
        · exact Or.inr ⟨_, rfl, err_max_selections_ne _⟩
        · exact Or.inl rfl
      · exact Or.inl rfl
  · exact Or.inl rfl

/-- Helper: the rule loop only surfaces failing results, and those carry
a nonempty message. -/
theorem runValidationRules_some (rules : List ValidationRule) (v : Value)
    (f : FieldSchema) :
    ∀ res, runValidationRules rules v f = some res →
    ∃ e, res = { valid := false, error := some e } ∧ e ≠ "" := by
  induction rules with
  | nil => intro res h; exact absurd h (by simp [runValidationRules])
  | cons r rs ih =>
    intro res h
    unfold runValidationRules at h
    dsimp only at h
    split at h
    · exact ih res h
    · rename_i hval
      obtain rfl : validateRule r v f = res := Option.some.inj h
      rcases validateRule_ok r v f with hok | ⟨e, heq, hne⟩
      · rw [hok] at hval; exact absurd rfl hval
      · exact ⟨e, heq, hne⟩

/-- Helper: field validation either passes cleanly or fails with a
nonempty message. -/
theorem validateField_ok (f : FieldSchema) (v : Value) (fd : Option FormData) :
    validateField f v fd = { valid := true } ∨
    ∃ e, validateField f v fd = { valid := false, error := some e } ∧
      e ≠ "" := by
  unfold validateField
  dsimp only
  split
  · exact Or.inr ⟨_, rfl, by decide⟩
  · split
    · exact Or.inl rfl
    · split
      · rename_i res heq
        split at heq
        · obtain ⟨e, hres, hne⟩ := runValidationRules_some _ _ _ _ heq
          exact Or.inr ⟨e, by rw [hres], hne⟩
        · exact absurd heq (by simp)
      · split
        · rename_i hval
          rcases validateFieldType_ok f v with hok | ⟨e, heq, hne⟩
          · rw [hok] at hval; exact absurd hval (by simp)
          · exact Or.inr ⟨e, heq, hne⟩
        · exact Or.inl rfl

/-- Helper: a field contributes no error entry exactly when its
validation passes. -/
theorem errorEntryOf_none_iff (f : FieldSchema) (v : Value)
    (fd : Option FormData) :
    errorEntryOf (validateField f v fd) = none ↔
    (validateField f v fd).valid = true := by
  rcases validateField_ok f v fd with h | ⟨e, h, hne⟩ <;> rw [h]
  · simp [errorEntryOf]
  · have : (e != "") = true := bne_iff_ne.mpr hne
    simp [errorEntryOf, this]

/-- Helper: lookup misses a key absent from the association list. -/
theorem lookup_none_of_keys {l : List (String × String)} {k : String}
    (h : ∀ p ∈ l, p.1 ≠ k) : l.lookup k = none := by
  induction l with
  | nil => rfl
  | cons p t ih =>
    obtain ⟨a, b⟩ := p
    have hka : (k == a) = false :=
      beq_eq_false_iff_ne.mpr (fun hk => h (a, b) (by simp) (by simp [hk]))
    rw [List.lookup_cons, hka]
    exact ih (fun q hq => h q (List.mem_cons_of_mem _ hq))

/-- Helper: appending an entry under a different key does not change a
lookup. -/
theorem lookup_append_singleton_ne {l : List (String × String)}
    {k a e : String} (hne : k ≠ a) :
    (l ++ [(a, e)]).lookup k = l.lookup k := by
  induction l with
  | nil =>
    show List.lookup k [(a, e)] = none
    rw [List.lookup_cons, beq_eq_false_iff_ne.mpr hne]
    rfl
  | cons p t ih =>
    obtain ⟨x, y⟩ := p
    rw [List.cons_append, List.lookup_cons, List.lookup_cons]
    cases hkx : k == x
    · exact ih
    · rfl

/-- Helper: appending an entry under a fresh key makes it the lookup
result. -/
theorem lookup_append_singleton_self {l : List (String × String)}
    {a e : String} (h : ∀ p ∈ l, p.1 ≠ a) :
    (l ++ [(a, e)]).lookup a = some e := by
  induction l with
  | nil =>
    show List.lookup a [(a, e)] = some e
    rw [List.lookup_cons, beq_self_eq_true]
  | cons p t ih =>
    obtain ⟨x, y⟩ := p
    have : (a == x) = false :=
      beq_eq_false_iff_ne.mpr (fun hx => h (x, y) (by simp) (by simp [hx]))
    rw [List.cons_append, List.lookup_cons, this]
    exact ih (fun q hq => h q (List.mem_cons_of_mem _ hq))

/-- Helper: one pass of the `validateForm` loop appends exactly the
field's error entry (the accumulated keys being fresh for this field). -/
theorem validateFormStep_eq (allFields : List FieldSchema) (d : FormData)
    (acc : List (String × String)) (g : FieldSchema)
    (hk : ∀ p ∈ acc, p.1 ≠ g.id) :
    validateFormStep allFields d acc g =
      match fieldErrorEntry allFields d g with
      | none => acc
      | some e => acc ++ [(g.id, e)] := by
  unfold validateFormStep fieldErrorEntry
  split
  · rfl
  · split
    · rfl
    · dsimp only
      unfold errorEntryOf
      cases herr : (validateField g (d g.id) (some d)).error with
      | none => rfl
      | some e =>
        dsimp only
        by_cases hcond :
            (!(validateField g (d g.id) (some d)).valid && (e != "")) = true
        · rw [if_pos hcond, if_pos hcond]
          show objSet acc g.id e = acc ++ [(g.id, e)]
          unfold objSet
          have hany : acc.any (fun p => p.1 == g.id) = false := by
            rw [List.any_eq_false]
            intro p hp
            simp [beq_eq_false_iff_ne.mpr (hk p hp)]
          rw [hany]
          rfl
        · rw [if_neg hcond, if_neg hcond]

/-- Helper: the `validateForm` fold computes, per field, exactly its
error entry, and touches no other key. -/
theorem validateForm_fold (allFields : List FieldSchema) (d : FormData) :
    ∀ (fs : List FieldSchema) (acc : List (String × String)),
    (∀ p ∈ acc, p.1 ∉ fs.map (fun f => f.id)) →
    (fs.map (fun f => f.id)).Nodup →
    (∀ f ∈ fs, (fs.foldl (validateFormStep allFields d) acc).lookup f.id =
      fieldErrorEntry allFields d f) ∧
    (∀ k, k ∉ fs.map (fun f => f.id) →
      (fs.foldl (validateFormStep allFields d) acc).lookup k =
        acc.lookup k) := by
  intro fs
  induction fs with
  | nil => intro acc _ _; exact ⟨by simp, fun k _ => rfl⟩
  | cons g fs ih =>
    intro acc hdisj hnd
    rw [List.map_cons, List.nodup_cons] at hnd
    obtain ⟨hgid, hnd'⟩ := hnd
    have hkg : ∀ p ∈ acc, p.1 ≠ g.id :=
      fun p hp heq => hdisj p hp (by simp [heq])
    have hstep := validateFormStep_eq allFields d acc g hkg
    have hdisj' : ∀ p ∈ validateFormStep allFields d acc g,
        p.1 ∉ fs.map (fun f => f.id) := by
      intro p hp
      rw [hstep] at hp
      rcases hfe : fieldErrorEntry allFields d g with _ | e <;> rw [hfe] at hp
      · exact fun hmem => hdisj p hp (by simp [hmem])
      · rcases List.mem_append.mp hp with hp1 | hp2
        · exact fun hmem => hdisj p hp1 (by simp [hmem])
        · have hpe : p = (g.id, e) := by simpa using hp2
          rw [hpe]
          exact hgid
    obtain ⟨ih1, ih2⟩ := ih (validateFormStep allFields d acc g) hdisj' hnd'
    constructor
    · intro f hf
      rcases List.mem_cons.mp hf with rfl | hf'
      · rw [List.foldl_cons, ih2 f.id hgid, hstep]
        rcases hfe : fieldErrorEntry allFields d f with _ | e
        · exact lookup_none_of_keys hkg
        · exact lookup_append_singleton_self hkg
      · rw [List.foldl_cons]
        exact ih1 f hf'
    · intro k hk
      have hk1 : k ∉ fs.map (fun f => f.id) := fun h => hk (by simp [h])
      have hk2 : k ≠ g.id := fun h => hk (by simp [h])
      rw [List.foldl_cons, ih2 k hk1, hstep]
      rcases hfe : fieldErrorEntry allFields d g with _ | e
      · rfl
      · exact lookup_append_singleton_ne hk2

/-- C4: `validateForm` skips section and hidden fields and fields whose
conditions evaluate to not visible (none of them can contribute an
error), validates every remaining field via `validateField` (a field
contributes an entry exactly when its validation fails), and is valid
exactly when the error map is empty. -/
theorem validateForm_spec (fields : List FieldSchema) (d : FormData)
    (hnd : (fields.map (fun f => f.id)).Nodup) :
    ((validateForm fields d).valid = true ↔
      (validateForm fields d).errors = []) ∧
    (∀ f ∈ fields, (validateForm fields d).errors.lookup f.id =
      fieldErrorEntry fields d f) ∧
    (∀ f ∈ fields, f.type = .hidden ∨ f.type = .section_ →
      (validateForm fields d).errors.lookup f.id = none) ∧
    (∀ f ∈ fields, evaluateConditions f d fields = false →
      (validateForm fields d).errors.lookup f.id = none) ∧
    (∀ f ∈ fields, f.type ≠ .hidden → f.type ≠ .section_ →
      evaluateConditions f d fields = true →
      (validateForm fields d).errors.lookup f.id =
        errorEntryOf (validateField f (d f.id) (some d))) ∧
    (∀ f v, errorEntryOf (validateField f v (some d)) = none ↔
      (validateField f v (some d)).valid = true) := by
  have hE : (validateForm fields d).errors =
      fields.foldl (validateFormStep fields d) [] := rfl
  obtain ⟨h1, _h2⟩ := validateForm_fold fields d fields [] (by simp) hnd
  refine ⟨List.isEmpty_iff, ?_, ?_, ?_, ?_,
    fun f v => errorEntryOf_none_iff f v (some d)⟩
  · intro f hf
    rw [hE]
    exact h1 f hf
  · intro f hf hty
    rw [hE, h1 f hf]
    unfold fieldErrorEntry
    rcases hty with h | h <;> simp [h]
  · intro f hf hev
    rw [hE, h1 f hf]
    unfold fieldErrorEntry
    by_cases hty : (f.type == .hidden || f.type == .section_) = true
    · simp [hty]
    · have hsome : f.conditions.isSome = true := by
        rcases hc : f.conditions with _ | c
        · have := (evaluateConditions_cases f d fields).1 hc
          rw [this] at hev
          exact absurd hev (by simp)
        · rfl
      simp [hty, hsome, hev]
  · intro f hf ht1 ht2 hev
    rw [hE, h1 f hf]
    unfold fieldErrorEntry
    simp [beq_eq_false_iff_ne.mpr ht1, beq_eq_false_iff_ne.mpr ht2, hev]

/-- Witness for C4: a required empty text field errors, a section field
is skipped, and the aggregate is invalid. -/
theorem validateForm_spec_witness :
    (validateForm [demoRequiredField "r" 0, demoSectionField "s" 1]
      (fun _ => .vundef)).errors.lookup "s" = none ∧
    (validateForm [demoRequiredField "r" 0, demoSectionField "s" 1]
      (fun _ => .vundef)).errors.lookup "r" = some ERROR_REQUIRED ∧
    (validateForm [demoRequiredField "r" 0, demoSectionField "s" 1]
      (fun _ => .vundef)).valid = false := by
  have h := validateForm_spec
    [demoRequiredField "r" 0, demoSectionField "s" 1]
    (fun _ => .vundef) (by decide)
  refine ⟨?_, ?_, by decide⟩
  · have := h.2.2.1 (demoSectionField "s" 1) (by simp) (Or.inr rfl)
    simpa using this
  · have := h.2.1 (demoRequiredField "r" 0) (by simp)
    rw [show ((demoRequiredField "r" 0).id) = "r" from rfl] at this
    rw [this]
    decide

/-- Helper: a true flag freezes the dependency loop. -/
theorem stepFold_frozen (g : String → DfsSt → Bool × DfsSt)
    (ds : List String) (t : DfsSt) : stepFold g ds (true, t) = (true, t) := by
  induction ds with
  | nil => rfl
  | cons d dt ih => exact ih

/-- Helper: one step of the dependency loop on a false flag runs the
search on the head. -/
theorem stepFold_cons (g : String → DfsSt → Bool × DfsSt) (d : String)
    (ds : List String) (t : DfsSt) :
    stepFold g (d :: ds) (false, t) = stepFold g ds (g d t) := rfl

/-- Helper: `hasCycle` on an id already on the recursion stack records it
and reports a cycle. -/
theorem dfsGo_stack (deps : String → Option (List String)) (fuel : Nat)
    (f : String) (s : DfsSt) (h : f ∈ s.stack) :
    dfsGo deps (fuel + 1) f s =
      (true, { s with cycles := s.cycles ++ [f] }) := by
  simp [dfsGo, h]

/-- Helper: `hasCycle` on a visited id off the stack is a no-op. -/
theorem dfsGo_visited (deps : String → Option (List String)) (fuel : Nat)
    (f : String) (s : DfsSt) (h1 : f ∉ s.stack) (h2 : f ∈ s.visited) :
    dfsGo deps (fuel + 1) f s = (false, s) := by
  simp [dfsGo, h1, h2]

/-- Helper: `hasCycle` on a fresh id marks it, loops over its
dependencies, and pops it from the stack when no cycle was found. -/
theorem dfsGo_fresh (deps : String → Option (List String)) (fuel : Nat)
    (f : String) (s : DfsSt) (h1 : f ∉ s.stack) (h2 : f ∉ s.visited) :
    dfsGo deps (fuel + 1) f s =
      (if (stepFold (fun d u => dfsGo deps fuel d u) ((deps f).getD [])
            (false, { s with visited := s.visited ++ [f],
                             stack := s.stack ++ [f] })).1
       then (true,
         (stepFold (fun d u => dfsGo deps fuel d u) ((deps f).getD [])
           (false, { s with visited := s.visited ++ [f],
                            stack := s.stack ++ [f] })).2)
       else (false,
         { (stepFold (fun d u => dfsGo deps fuel d u) ((deps f).getD [])
             (false, { s with visited := s.visited ++ [f],
                              stack := s.stack ++ [f] })).2 with
             stack := (stepFold (fun d u => dfsGo deps fuel d u)
               ((deps f).getD [])
               (false, { s with visited := s.visited ++ [f],
                                stack := s.stack ++ [f] })).2.stack.filter
                 (fun x => x != f) })) := by
  simp [dfsGo, h1, h2]

/-- Helper: membership in the insertion-ordered dedup is membership. -/
theorem dedupIns_mem (l : List String) (x : String) :
    x ∈ dedupIns l ↔ x ∈ l := by
  have key : ∀ (l acc : List String),
      (x ∈ l.foldl (fun acc y => if y ∈ acc then acc else acc ++ [y]) acc ↔
        x ∈ acc ∨ x ∈ l) := by
    intro l
    induction l with
    | nil => intro acc; simp
    | cons a t ih =>
      intro acc
      rw [List.foldl_cons]
      by_cases ha : a ∈ acc
      · rw [if_pos ha, ih]
        constructor
        · rintro (h | h)
          · exact Or.inl h
          · exact Or.inr (List.mem_cons_of_mem _ h)
        · rintro (h | h)
          · exact Or.inl h
          · rcases List.mem_cons.mp h with rfl | h2
            · exact Or.inl ha
            · exact Or.inr h2
      · rw [if_neg ha, ih]
        constructor
        · rintro (h | h)
          · rcases List.mem_append.mp h with h2 | h2
            · exact Or.inl h2
            · exact Or.inr (by simpa using Or.inl (by simpa using h2))
          · exact Or.inr (List.mem_cons_of_mem _ h)
        · rintro (h | h)
          · exact Or.inl (List.mem_append.mpr (Or.inl h))
          · rcases List.mem_cons.mp h with rfl | h2
            · exact Or.inl (List.mem_append.mpr (Or.inr (by simp)))
            · exact Or.inr h2
  rw [dedupIns, key]
  simp

/-- Helper: the dependency loop preserves the search invariants, only
appends to `cycles`, restores the stack on a clean pass, reports a cycle
only when one was recorded, and returns `true` whenever some dependency
in the list is already on the recursion stack. -/
theorem dfsFold_master (deps : String → Option (List String))
    (U : Finset String) (S : String) (fuel : Nat)
    (IH : ∀ f s, f ∈ U → dfsInv U s →
      U.card < fuel + s.visited.toFinset.card →
      dfsInv U (dfsGo deps fuel f s).2 ∧
      dfsStep S s (dfsGo deps fuel f s).1 (dfsGo deps fuel f s).2 ∧
      f ∈ (dfsGo deps fuel f s).2.visited) :
    ∀ (ds : List String) (t : DfsSt), (∀ x ∈ ds, x ∈ U) → dfsInv U t →
      U.card < fuel + t.visited.toFinset.card →
      dfsInv U (stepFold (fun d u => dfsGo deps fuel d u) ds (false, t)).2 ∧
      dfsStep S t (stepFold (fun d u => dfsGo deps fuel d u) ds (false, t)).1
        (stepFold (fun d u => dfsGo deps fuel d u) ds (false, t)).2 ∧
      ((∃ x ∈ ds, x ∈ t.stack) →
        (stepFold (fun d u => dfsGo deps fuel d u) ds (false, t)).1 = true) := by
  intro ds
  induction ds with
  | nil =>
    intro t hds hinv hfuel
    refine ⟨hinv, ⟨fun x hx => hx, ⟨[], by simp [stepFold]⟩,
      fun _ => ⟨rfl, rfl⟩, ?_, fun hp => hp⟩, ?_⟩
    · intro h
      exact absurd h (by simp [stepFold])
    · rintro ⟨x, hx, _⟩
      exact absurd hx (List.not_mem_nil x)
  | cons d dt ihl =>
    intro t hds hinv hfuel
    rcases hgo : dfsGo deps fuel d t with ⟨b1, t1⟩
    have hcall := IH d t (hds d (by simp)) hinv hfuel
    rw [hgo] at hcall
    obtain ⟨hinv1, hstep1, hdvis⟩ := hcall
    dsimp only at hinv1 hstep1 hdvis
    have hunf : stepFold (fun d u => dfsGo deps fuel d u) (d :: dt) (false, t) =
        stepFold (fun d u => dfsGo deps fuel d u) dt (b1, t1) := by
      rw [stepFold_cons, hgo]
    obtain ⟨hmono1, hcy1, hfalse1, htrue1, hprop1⟩ := hstep1
    cases b1 with
    | true =>
      rw [hunf, stepFold_frozen]
      refine ⟨hinv1, ⟨hmono1, hcy1, ?_, fun _ => htrue1 rfl, hprop1⟩,
        fun _ => rfl⟩
      intro h
      exact absurd h (by simp)
    | false =>
      obtain ⟨hstk1, hcyeq1⟩ := hfalse1 rfl
      have hfuel2 : U.card < fuel + t1.visited.toFinset.card := by
        have hsub : t.visited.toFinset ⊆ t1.visited.toFinset := fun x hx =>
          List.mem_toFinset.mpr (hmono1 x (List.mem_toFinset.mp hx))
        have := Finset.card_le_card hsub
        omega
      have hds' : ∀ x ∈ dt, x ∈ U := fun x hx => hds x (by simp [hx])
      obtain ⟨rinv, rstep, rstack⟩ := ihl t1 hds' hinv1 hfuel2
      obtain ⟨rmono, rcy, rfalse, rtrue, rprop⟩ := rstep
      rw [hunf]
      refine ⟨rinv, ⟨fun x hx => rmono x (hmono1 x hx), ?_, ?_, rtrue, ?_⟩, ?_⟩
      · obtain ⟨c2, hc2⟩ := rcy
        exact ⟨c2, by rw [hc2, hcyeq1]⟩
      · intro hb
        obtain ⟨hs2, hc2⟩ := rfalse hb
        exact ⟨by rw [hs2, hstk1], by rw [hc2, hcyeq1]⟩
      · intro hP
        exact rprop (fun hSv => hprop1 hP hSv)
      · rintro ⟨x, hx, hxs⟩
        rcases List.mem_cons.mp hx with rfl | hx2
        · exfalso
          have hfge : 1 ≤ fuel := by
            have hsub : t.visited.toFinset ⊆ U := fun y hy =>
              hinv.1 y (List.mem_toFinset.mp hy)
            have := Finset.card_le_card hsub
            omega
          obtain ⟨k, rfl⟩ : ∃ k, fuel = k + 1 := ⟨fuel - 1, by omega⟩
          rw [dfsGo_stack deps k x t hxs] at hgo
          exact Bool.noConfusion (congrArg Prod.fst hgo)
        · exact rstack ⟨x, hx2, by rw [hstk1]; exact hxs⟩

/-- Helper: one `hasCycle` call preserves the search invariants, marks
its argument visited, and preserves "a visited self-referencing id
implies a recorded cycle" — where `S` is an id whose dependency list
contains itself. -/
theorem dfsGo_master (deps : String → Option (List String))
    (U : Finset String) (S : String)
    (hdeps : ∀ id l, deps id = some l → ∀ x ∈ l, x ∈ U)
    (hS : ∃ l, deps S = some l ∧ S ∈ l) :
    ∀ fuel f s, f ∈ U → dfsInv U s →
      U.card < fuel + s.visited.toFinset.card →
      dfsInv U (dfsGo deps fuel f s).2 ∧
      dfsStep S s (dfsGo deps fuel f s).1 (dfsGo deps fuel f s).2 ∧
      f ∈ (dfsGo deps fuel f s).2.visited := by
  intro fuel
  induction fuel with
  | zero =>
    intro f s hf hinv hfuel
    exfalso
    have hsub : s.visited.toFinset ⊆ U := fun y hy =>
      hinv.1 y (List.mem_toFinset.mp hy)
    have := Finset.card_le_card hsub
    omega
  | succ fuel ih =>
    intro f s hf hinv hfuel
    obtain ⟨hv, hsv⟩ := hinv
    by_cases hstack : f ∈ s.stack
    · rw [dfsGo_stack deps fuel f s hstack]
      refine ⟨⟨hv, hsv⟩, ⟨fun x hx => hx, ⟨[f], rfl⟩, ?_, fun _ => by simp,
        fun _ _ => by simp⟩, hsv f hstack⟩
      intro h
      exact absurd h (by simp)
    · by_cases hvis : f ∈ s.visited
      · rw [dfsGo_visited deps fuel f s hstack hvis]
        exact ⟨⟨hv, hsv⟩, ⟨fun x hx => hx, ⟨[], by simp⟩, fun _ => ⟨rfl, rfl⟩,
          by intro h; exact absurd h (by simp), fun hp => hp⟩, hvis⟩
      · have hds : ∀ x ∈ (deps f).getD [], x ∈ U := by
          cases hdf : deps f with
          | none => simp
          | some l => simpa using hdeps f l hdf
        have hinv1 : dfsInv U { s with visited := s.visited ++ [f],
                                         stack := s.stack ++ [f] } := by
          constructor
          · intro x hx
            rcases List.mem_append.mp hx with h | h
            · exact hv x h
            · rw [List.mem_singleton.mp h]; exact hf
          · intro x hx
            rcases List.mem_append.mp hx with h | h
            · exact List.mem_append.mpr (Or.inl (hsv x h))
            · exact List.mem_append.mpr (Or.inr h)
        have hcard1 : ({ s with visited := s.visited ++ [f],
                                 stack := s.stack ++ [f] } :
            DfsSt).visited.toFinset.card = s.visited.toFinset.card + 1 := by
          show (s.visited ++ [f]).toFinset.card = _
          rw [List.toFinset_append]
          have h1 : ([f] : List String).toFinset = {f} := rfl
          rw [h1, Finset.union_comm, ← Finset.insert_eq,
            Finset.card_insert_of_not_mem (fun hm =>
              hvis (List.mem_toFinset.mp hm))]
        have hfuel1 : U.card < fuel +
            ({ s with visited := s.visited ++ [f],
                      stack := s.stack ++ [f] } :
              DfsSt).visited.toFinset.card := by
          rw [hcard1]; omega
        obtain ⟨finv, fstep, ffl⟩ := dfsFold_master deps U S fuel ih
          ((deps f).getD [])
          { s with visited := s.visited ++ [f], stack := s.stack ++ [f] }
          hds hinv1 hfuel1
        rcases hfr : stepFold (fun d u => dfsGo deps fuel d u)
            ((deps f).getD [])
            (false, { s with visited := s.visited ++ [f],
                             stack := s.stack ++ [f] }) with ⟨bf, tf⟩
        rw [hfr] at finv fstep ffl
        dsimp only at finv fstep ffl
        obtain ⟨fmono, fcy, ffalse, ftrue, fprop⟩ := fstep
        rw [dfsGo_fresh deps fuel f s hstack hvis, hfr]
        cases bf with
        | true =>
          dsimp only [if_true]
          refine ⟨finv, ⟨?_, ?_, ?_, fun _ => ftrue rfl, fun _ _ => ftrue rfl⟩,
            ?_⟩
          · exact fun x hx => fmono x (List.mem_append.mpr (Or.inl hx))
          · exact fcy
          · intro h; exact absurd h (by simp)
          · exact fmono f (List.mem_append.mpr (Or.inr (by simp)))
        | false =>
          obtain ⟨hstk, hcyeq⟩ := ffalse rfl
          dsimp only [if_false]
          have hstackeq : tf.stack.filter (fun x => x != f) = s.stack := by
            rw [hstk]
            show (s.stack ++ [f]).filter (fun x => x != f) = s.stack
            rw [List.filter_append]
            have h1 : s.stack.filter (fun x => x != f) = s.stack :=
              List.filter_eq_self.mpr (fun x hx =>
                bne_iff_ne.mpr (fun he => hstack (he ▸ hx)))
            have h2 : ([f] : List String).filter (fun x => x != f) = [] := by
              simp
            rw [h1, h2, List.append_nil]
          refine ⟨⟨finv.1, ?_⟩, ⟨?_, ?_, ?_, ?_, ?_⟩, ?_⟩
          · intro x hx
            exact finv.2 x (List.mem_of_mem_filter hx)
          · exact fun x hx => fmono x (List.mem_append.mpr (Or.inl hx))
          · exact fcy
          · intro _
            exact ⟨hstackeq, hcyeq⟩
          · intro h; exact absurd h (by simp)
          · intro hP hSvis
            by_cases hfS : f = S
            · exfalso
              obtain ⟨LS, hLS, hSin⟩ := hS
              have hbt : false = true := ffl ⟨S, by
                  rw [hfS, hLS]; simpa using hSin,
                by rw [hfS]; exact List.mem_append.mpr (Or.inr (by simp))⟩
              exact Bool.noConfusion hbt
            · refine fprop (fun hSv1 => ?_) hSvis
              rcases List.mem_append.mp hSv1 with h | h
              · exact hP h
              · exact absurd (List.mem_singleton.mp h).symm hfS
          · exact fmono f (List.mem_append.mpr (Or.inr (by simp)))

/-- Helper: with unique ids, the dependency-map filter for a present
field's id selects exactly that field. -/
theorem filter_id_eq_singleton {fields : List FieldSchema} {Sf : FieldSchema}
    (hnd : (fields.map (fun f => f.id)).Nodup) (hmem : Sf ∈ fields) :
    fields.filter (fun f => f.id == Sf.id) = [Sf] := by
  induction fields with
  | nil => exact absurd hmem (List.not_mem_nil _)
  | cons a t ih =>
    rw [List.map_cons, List.nodup_cons] at hnd
    obtain ⟨hna, hnt⟩ := hnd
    rcases List.mem_cons.mp hmem with rfl | hmt
    · rw [List.filter_cons_of_pos (by simp)]
      have hnone : t.filter (fun f => f.id == Sf.id) = [] := by
        rw [List.filter_eq_nil_iff]
        intro x hx hbx
        exact hna (List.mem_map.mpr
          ⟨x, hx, beq_iff_eq.mp (by simpa using hbx)⟩)
      rw [hnone]
    · have hane : (a.id == Sf.id) = false := by
        apply beq_eq_false_iff_ne.mpr
        intro he
        exact hna (List.mem_map.mpr ⟨Sf, hmt, he.symm⟩)
      rw [List.filter_cons_of_neg (by simp [hane])]
      exact ih hnt hmt

/-- Helper part of C5: a schema with no conditional rule anywhere yields
an empty cycle report. -/
theorem detect_no_rules (fields : List FieldSchema)
    (h : ∀ f ∈ fields, ruleTargets f = []) :
    detectCircularDependencies fields = [] := by
  have hdeps : ∀ id, depsMapGet fields id = none ∨
      depsMapGet fields id = some [] := by
    intro id
    unfold depsMapGet
    cases hlast : (fields.filter (fun f => f.id == id)).getLast? with
    | none => exact Or.inl rfl
    | some g =>
      right
      have hg : g ∈ fields :=
        (List.mem_filter.mp (List.mem_of_mem_getLast? hlast)).1
      simp [h g hg, dedupIns]
  have hgo : ∀ fid (vs : List String),
      dfsGo (depsMapGet fields) (fields.length + totalRules fields + 1) fid
        ⟨vs, [], []⟩ =
      (false, ⟨if fid ∈ vs then vs else vs ++ [fid], [], []⟩) := by
    intro fid vs
    by_cases hv : fid ∈ vs
    · rw [dfsGo_visited _ _ _ _ (by simp) hv, if_pos hv]
    · rw [dfsGo_fresh _ _ _ _ (by simp) hv]
      have hdl : ((depsMapGet fields fid).getD []) = [] := by
        rcases hdeps fid with h1 | h1 <;> simp [h1]
      rw [hdl, if_neg hv]
      show (if (stepFold _ [] _).1 then _ else _) = _
      rw [show ∀ (g : String → DfsSt → Bool × DfsSt) (t : Bool × DfsSt),
          stepFold g [] t = t from fun _ _ => rfl]
      simp
  have htop : ∀ (fs : List FieldSchema) (vs : List String),
      ∃ vs', fs.foldl (fun (s : DfsSt) f => if f.id ∈ s.visited then s
          else (dfsGo (depsMapGet fields)
            (fields.length + totalRules fields + 1) f.id s).2)
          ⟨vs, [], []⟩ = ⟨vs', [], []⟩ := by
    intro fs
    induction fs with
    | nil => intro vs; exact ⟨vs, rfl⟩
    | cons g fs ihl =>
      intro vs
      rw [List.foldl_cons]
      by_cases hv : g.id ∈ vs
      · rw [if_pos hv]
        exact ihl vs
      · rw [if_neg hv, hgo g.id vs, if_neg hv]
        exact ihl (vs ++ [g.id])
  obtain ⟨vs', hvs⟩ := htop fields []
  show (fields.foldl (fun (s : DfsSt) f => if f.id ∈ s.visited then s
      else (dfsGo (depsMapGet fields)
        (fields.length + totalRules fields + 1) f.id s).2)
      ⟨[], [], []⟩).cycles = []
  rw [hvs]

/-- Helper part of C5: with unique ids, any self-referencing rule forces
a nonempty cycle report. -/
theorem detect_self_ref (fields : List FieldSchema)
    (hnd : (fields.map (fun f => f.id)).Nodup)
    (hself : ∃ f ∈ fields, f.id ∈ ruleTargets f) :
    detectCircularDependencies fields ≠ [] := by
  obtain ⟨Sf, hSmem, hStar⟩ := hself
  have hDS : depsMapGet fields Sf.id = some (dedupIns (ruleTargets Sf)) := by
    unfold depsMapGet
    rw [filter_id_eq_singleton hnd hSmem]
    rfl
  have hS : ∃ l, depsMapGet fields Sf.id = some l ∧ Sf.id ∈ l :=
    ⟨_, hDS, (dedupIns_mem _ _).mpr hStar⟩
  have hdeps : ∀ id l, depsMapGet fields id = some l →
      ∀ x ∈ l, x ∈ idUniverse fields := by
    intro id l hl x hx
    unfold depsMapGet at hl
    cases hlast : (fields.filter (fun f => f.id == id)).getLast? with
    | none => rw [hlast] at hl; exact absurd hl (by simp)
    | some g =>
      rw [hlast] at hl
      obtain rfl : dedupIns (ruleTargets g) = l := by simpa using hl
      have hg : g ∈ fields :=
        (List.mem_filter.mp (List.mem_of_mem_getLast? hlast)).1
      have hx2 : x ∈ ruleTargets g := (dedupIns_mem _ _).mp hx
      unfold idUniverse
      rw [List.mem_toFinset]
      exact List.mem_append.mpr (Or.inr (List.mem_flatten.mpr
        ⟨ruleTargets g, List.mem_map.mpr ⟨g, hg, rfl⟩, hx2⟩))
  have hUcard : (idUniverse fields).card <
      fields.length + totalRules fields + 1 := by
    have h1 : (idUniverse fields).card ≤
        (fields.map (fun f => f.id) ++ (fields.map ruleTargets).flatten).length :=
      List.toFinset_card_le _
    rw [List.length_append, List.length_map] at h1
    have h2 : (fields.map ruleTargets).flatten.length = totalRules fields := by
      rw [List.length_flatten, List.map_map]
      rfl
    omega
  have hfold : ∀ (fs : List FieldSchema) (s : DfsSt),
      (∀ f ∈ fs, f.id ∈ idUniverse fields) → dfsInv (idUniverse fields) s →
      (Sf.id ∈ s.visited → s.cycles ≠ []) →
      (∀ x ∈ s.visited, x ∈ (fs.foldl (fun (s : DfsSt) f =>
        if f.id ∈ s.visited then s
        else (dfsGo (depsMapGet fields)
          (fields.length + totalRules fields + 1) f.id s).2) s).visited) ∧
      (Sf.id ∈ (fs.foldl (fun (s : DfsSt) f =>
        if f.id ∈ s.visited then s
        else (dfsGo (depsMapGet fields)
          (fields.length + totalRules fields + 1) f.id s).2) s).visited →
        (fs.foldl (fun (s : DfsSt) f =>
          if f.id ∈ s.visited then s
          else (dfsGo (depsMapGet fields)
            (fields.length + totalRules fields + 1) f.id s).2) s).cycles ≠ []) ∧
      (∀ f ∈ fs, f.id ∈ (fs.foldl (fun (s : DfsSt) f =>
        if f.id ∈ s.visited then s
        else (dfsGo (depsMapGet fields)
          (fields.length + totalRules fields + 1) f.id s).2) s).visited) := by
    intro fs
    induction fs with
    | nil =>
      intro s _ _ hP
      exact ⟨fun x hx => hx, hP, by simp⟩
    | cons g fs ihl =>
      intro s hfs hinv hP
      rw [List.foldl_cons]
      by_cases hgv : g.id ∈ s.visited
      · rw [if_pos hgv]
        obtain ⟨i2, i3, i4⟩ := ihl s (fun f hf => hfs f (by simp [hf])) hinv hP
        refine ⟨i2, i3, ?_⟩
        intro f hf
        rcases List.mem_cons.mp hf with rfl | hf2
        · exact i2 f.id hgv
        · exact i4 f hf2
      · rw [if_neg hgv]
        have hcall := dfsGo_master (depsMapGet fields) (idUniverse fields)
          Sf.id hdeps hS (fields.length + totalRules fields + 1) g.id s
          (hfs g (by simp)) hinv (by omega)
        obtain ⟨cinv, cstep, cgvis⟩ := hcall
        obtain ⟨cmono, _, _, _, cprop⟩ := cstep
        obtain ⟨i2, i3, i4⟩ := ihl _ (fun f hf => hfs f (by simp [hf])) cinv
          (cprop hP)
        refine ⟨fun x hx => i2 x (cmono x hx), i3, ?_⟩
        intro f hf
        rcases List.mem_cons.mp hf with rfl | hf2
        · exact i2 f.id cgvis
        · exact i4 f hf2
  have hids : ∀ f ∈ fields, f.id ∈ idUniverse fields := by
    intro f hf
    unfold idUniverse
    rw [List.mem_toFinset]
    exact List.mem_append.mpr (Or.inl (List.mem_map.mpr ⟨f, hf, rfl⟩))
  obtain ⟨_, i3, i4⟩ := hfold fields ⟨[], [], []⟩ hids
    ⟨fun x hx => absurd hx (List.not_mem_nil x),
     fun x hx => absurd hx (List.not_mem_nil x)⟩
    (fun hx => absurd hx (List.not_mem_nil _))
  show (fields.foldl (fun (s : DfsSt) f => if f.id ∈ s.visited then s
      else (dfsGo (depsMapGet fields)
        (fields.length + totalRules fields + 1) f.id s).2)
      ⟨[], [], []⟩).cycles ≠ []
  exact i3 (i4 Sf hSmem)

/-- C5: cycle detection returns an empty result when no field has any
rule; any self-referencing rule (a one-node cycle) is detected; the
concrete cycle A→B→C→A yields a nonempty result naming one of A, B, C;
and the acyclic chain A→B, B→C yields an empty result. -/
theorem detectCircularDependencies_spec (fields : List FieldSchema) :
    ((∀ f ∈ fields, ruleTargets f = []) →
      detectCircularDependencies fields = []) ∧
    ((fields.map (fun f => f.id)).Nodup →
      (∃ f ∈ fields, f.id ∈ ruleTargets f) →
      detectCircularDependencies fields ≠ []) ∧
    (detectCircularDependencies
        [demoDepField "A" "B", demoDepField "B" "C", demoDepField "C" "A"] ≠ [] ∧
      ∃ x ∈ detectCircularDependencies
        [demoDepField "A" "B", demoDepField "B" "C", demoDepField "C" "A"],
        x = "A" ∨ x = "B" ∨ x = "C") ∧
    detectCircularDependencies
      [demoDepField "A" "B", demoDepField "B" "C", demoTextField "C" 2] = [] :=
  ⟨detect_no_rules fields, detect_self_ref fields, by decide, by decide⟩

/-- Witness for C5: the rule-free singleton yields no cycle, and a
single self-referencing field is reported. -/
theorem detectCircularDependencies_spec_witness :
    detectCircularDependencies [demoTextField "a" 0] = [] ∧
    detectCircularDependencies [demoDepField "A" "A"] ≠ [] :=
  ⟨(detectCircularDependencies_spec [demoTextField "a" 0]).1 (by decide),
   (detectCircularDependencies_spec [demoDepField "A" "A"]).2.1 (by decide)
     (by decide)⟩

end FormBuilder
